import Mathlib

set_option maxRecDepth 4000

/-!
Verification of the unified debt-repayment engine
(`src/src/utils/repaymentStrategies.js`, the final "Unified Debt Repayment
Calculation System" version of the file).

JS numbers are modelled as exact rationals (`ℚ`); arrays as lists; the
`while` loops as fuel recursion (the outer loop's fuel is the source's own
1200-month cap, the inner allocation loop's fuel is `debts.length + 1`,
which is shown sufficient for its real exit conditions).
-/

namespace Repayment

/-- A debt as supplied by the caller: `apr` is a percentage (e.g. `24` = 24%/yr),
`minPayment` the fixed contractual minimum (meaningful for non-credit-card debts). -/
structure Debt where
  id : Nat
  balance : ℚ
  apr : ℚ
  minPayment : ℚ
  isCreditCard : Bool
deriving DecidableEq

/-- One debt's payment record for one month (the object pushed into
`monthPaymentBreakdown`). -/
structure PayRecord where
  debtId : Nat
  payment : ℚ
  minimumPayment : ℚ
  extraPayment : ℚ
  balance : ℚ
  interestCharged : ℚ
deriving DecidableEq

/-- One month's entry of `monthlyPayments`. -/
structure MonthRecord where
  month : Nat
  debtPayments : List PayRecord
  totalPaid : ℚ
  remainingDebt : ℚ
deriving DecidableEq

/-- The running totals object. -/
structure Totals where
  totalPaid : ℚ
  totalInterest : ℚ
deriving DecidableEq

/-- The result object of `calculateRepaymentPlan`. -/
structure PlanResult where
  totalPaid : ℚ
  totalInterest : ℚ
  months : Nat
  monthlyPayments : List MonthRecord
deriving DecidableEq

/-- The three repayment methods of the unified engine. -/
inductive Method where
  | minimum
  | avalanche
  | snowball
deriving DecidableEq

/-- Source `calculateCreditCardMinimum(balance, apr)`: 1% of balance plus one
month's interest, with the three-tier floor rule. `apr` is a decimal rate here
(the engine divides the caller's percentage by 100 before any call). -/
def calculateCreditCardMinimum (balance apr : ℚ) : ℚ :=
  if balance ≤ 0 then 0
  else
    let monthlyInterest := balance * (apr / 12)
    let base := (1 / 100) * balance
    let calculatedMinimum := base + monthlyInterest
    if balance < 25 then balance
    else if calculatedMinimum < 25 then 25
    else calculatedMinimum

/-- The zero record the engine pushes for a debt that is already paid off. -/
def zeroRecord (debtId : Nat) : PayRecord :=
  { debtId := debtId, payment := 0, minimumPayment := 0, extraPayment := 0,
    balance := 0, interestCharged := 0 }

/-- Source `processMonthlyDebtPayment(debt, paymentAmount, totals)`.
Returns the month's record, the updated debt and the updated totals.
Interest is charged on the current balance but never added to it: the payment
covers the interest first and only the excess (clamped at zero) reduces the
balance. -/
def processMonthlyDebtPayment (debt : Debt) (paymentAmount : ℚ) (totals : Totals) :
    PayRecord × Debt × Totals :=
  if debt.balance ≤ 0 then
    (zeroRecord debt.id, debt, totals)
  else
    let monthlyInterest := debt.balance * (debt.apr / 12)
    let minimumPayment :=
      if debt.isCreditCard then calculateCreditCardMinimum debt.balance debt.apr
      else debt.minPayment
    let actualPayment := min paymentAmount debt.balance
    let principalPayment := actualPayment - monthlyInterest
    let safePrincipal := max 0 principalPayment
    let newBalance := max 0 (debt.balance - safePrincipal)
    ({ debtId := debt.id, payment := actualPayment, minimumPayment := minimumPayment,
       extraPayment := max 0 (actualPayment - minimumPayment), balance := newBalance,
       interestCharged := monthlyInterest },
     { debt with balance := newBalance },
     { totalPaid := totals.totalPaid + actualPayment,
       totalInterest := totals.totalInterest + monthlyInterest })

/-- This month's minimum due for a debt (the expression the engine computes in
both the minimum branch and the avalanche/snowball branch). -/
def debtMinimum (d : Debt) : ℚ :=
  if d.isCreditCard then calculateCreditCardMinimum d.balance d.apr else d.minPayment

/-- One month of the `minimum` branch: each debt just receives its own minimum
(`processMonthlyDebtPayment` caps the applied payment at the balance). -/
def processMinimumMonth : List Debt → Totals → List Debt × List PayRecord × Totals
  | [], totals => ([], [], totals)
  | debt :: rest, totals =>
    if debt.balance ≤ 0 then
      let s := processMinimumMonth rest totals
      (debt :: s.1, zeroRecord debt.id :: s.2.1, s.2.2)
    else
      let p := processMonthlyDebtPayment debt (debtMinimum debt) totals
      let s := processMinimumMonth rest p.2.2
      (p.2.1 :: s.1, p.1 :: s.2.1, s.2.2)

/-- Step 1 of an avalanche/snowball month: every debt receives
`min(minimum, balance)` and that amount is subtracted from the available
budget. Returns updated debts, the provisional records, totals and the
remaining budget. -/
def applyMinimumPayments : List Debt → Totals → ℚ → List Debt × List PayRecord × Totals × ℚ
  | [], totals, avail => ([], [], totals, avail)
  | debt :: rest, totals, avail =>
    if debt.balance ≤ 0 then
      let s := applyMinimumPayments rest totals avail
      (debt :: s.1, zeroRecord debt.id :: s.2.1, s.2.2.1, s.2.2.2)
    else
      let actualMinPayment := min (debtMinimum debt) debt.balance
      let p := processMonthlyDebtPayment debt actualMinPayment totals
      let s := applyMinimumPayments rest p.2.2 (avail - actualMinPayment)
      (p.2.1 :: s.1, p.1 :: s.2.1, s.2.2.1, s.2.2.2)

/-- Helper: replace the element at an index, leaving the list unchanged when the
index is out of range (JS indexed assignment on a valid index). -/
def modifyAt {α : Type} : List α → Nat → (α → α) → List α
  | [], _, _ => []
  | a :: l, 0, f => f a :: l
  | a :: l, n + 1, f => a :: modifyAt l n f

/-- Helper: the list paired with positions starting at `k`
(the `map((debt, index) => ...)` step). -/
def withIndexFrom {α : Type} : Nat → List α → List (Nat × α)
  | _, [] => []
  | k, a :: l => (k, a) :: withIndexFrom (k + 1) l

/-- Source: `workingDebts.map((debt, index) => ({...debt, index})).filter(debt => debt.balance > 0)`. -/
def debtsWithBalance (debts : List Debt) : List (Nat × Debt) :=
  (withIndexFrom 0 debts).filter fun p => decide (0 < p.2.balance)

/-- Head of the stable descending-APR sort (`sort((a, b) => b.apr - a.apr)` then
index 0): the earliest pair attaining the maximal APR. A later entry replaces
the current best only when its APR is strictly greater. -/
def selectAvalanche : List (Nat × Debt) → Option (Nat × Debt)
  | [] => none
  | p :: rest =>
    match selectAvalanche rest with
    | none => some p
    | some q => if q.2.apr > p.2.apr then some q else some p

/-- Strict precedence of the snowball comparator: balances closer than one cent
are a tie broken by higher APR, otherwise the lower balance goes first. -/
def snowballLt (q p : Debt) : Bool :=
  if |q.balance - p.balance| < 1 / 100 then decide (p.apr < q.apr)
  else decide (q.balance < p.balance)

/-- Head of the stable snowball sort: the earliest pair no later pair strictly
precedes (for the two-element lists and separated balances arising in this
development this is exactly the sorted head the source takes at index 0). -/
def selectSnowball : List (Nat × Debt) → Option (Nat × Debt)
  | [] => none
  | p :: rest =>
    match selectSnowball rest with
    | none => some p
    | some q => if snowballLt q.2 p.2 then some q else some p

/-- The priority selection of step 2, per method (never invoked for `minimum`). -/
def selectPriority (method : Method) (l : List (Nat × Debt)) : Option (Nat × Debt) :=
  match method with
  | .minimum => none
  | .avalanche => selectAvalanche l
  | .snowball => selectSnowball l

/-- Step 2 of an avalanche/snowball month, source `while (availableBudget > 0.01)`:
repeatedly pick the priority debt among those with positive balance, apply
`min(availableBudget, balance)` to it directly (interest was already handled by
the minimum payment), update its record, snap a sub-cent balance to zero, and
loop. The final `List (Nat × ℚ)` component is a bookkeeping trace of the
applications `(debt index, amount)`, used only by theorems. Fuel is passed by
the caller; `debts.length + 1` is enough to reach a genuine exit. -/
def allocateExtra (method : Method) :
    Nat → ℚ → List Debt → List PayRecord → Totals →
    List Debt × List PayRecord × Totals × ℚ × List (Nat × ℚ)
  | 0, avail, ds, recs, totals => (ds, recs, totals, avail, [])
  | fuel + 1, avail, ds, recs, totals =>
    if 1 / 100 < avail then
      match selectPriority method (debtsWithBalance ds) with
      | none => (ds, recs, totals, avail, [])
      | some (i, pd) =>
        let extraToApply := min avail pd.balance
        let rawBalance := pd.balance - extraToApply
        let newBalance := if rawBalance < 1 / 100 then 0 else rawBalance
        let ds' := modifyAt ds i fun d => { d with balance := newBalance }
        let recs' := modifyAt recs i fun r =>
          { r with payment := r.payment + extraToApply,
                   extraPayment := r.extraPayment + extraToApply,
                   balance := newBalance }
        let totals' := { totals with totalPaid := totals.totalPaid + extraToApply }
        let res := allocateExtra method fuel (avail - extraToApply) ds' recs' totals'
        (res.1, res.2.1, res.2.2.1, res.2.2.2.1, (i, extraToApply) :: res.2.2.2.2)
    else (ds, recs, totals, avail, [])

/-- One month of the engine for the given method (budget is ignored by `minimum`). -/
def monthStep (method : Method) (budget : ℚ) (debts : List Debt) (totals : Totals) :
    List Debt × List PayRecord × Totals :=
  match method with
  | .minimum => processMinimumMonth debts totals
  | _ =>
    let s1 := applyMinimumPayments debts totals budget
    let s2 := allocateExtra method (debts.length + 1) s1.2.2.2 s1.1 s1.2.1 s1.2.2.1
    (s2.1, s2.2.1, s2.2.2.1)

/-- Source `while (workingDebts.some(debt => debt.balance > 0) && months < 1200)`:
fuel counts the months still allowed by the 1200 cap, `monthCount` the months
already simulated; each iteration appends one `MonthRecord`. Returns the final
debts, totals, the month list and the month count. -/
def simulationLoop (method : Method) (budget : ℚ) :
    Nat → Nat → List Debt → Totals → List MonthRecord →
    List Debt × Totals × List MonthRecord × Nat
  | 0, monthCount, ds, totals, acc => (ds, totals, acc, monthCount)
  | fuel + 1, monthCount, ds, totals, acc =>
    if ds.any fun d => decide (0 < d.balance) then
      let s := monthStep method budget ds totals
      let mr : MonthRecord :=
        { month := monthCount + 1, debtPayments := s.2.1, totalPaid := s.2.2.totalPaid,
          remainingDebt := s.1.foldl (fun t d => t + d.balance) 0 }
      simulationLoop method budget fuel (monthCount + 1) s.1 s.2.2 (acc ++ [mr])
    else (ds, totals, acc, monthCount)

/-- The caller's debts with APR percentages converted to decimals
(`debt.apr = debt.apr / 100`), after the deep copy. -/
def workingCopy (debts : List Debt) : List Debt :=
  debts.map fun d => { d with apr := d.apr / 100 }

/-- The fixed monthly budget of an avalanche/snowball run: the sum of each
debt's minimum computed against its starting balance, plus the extra payment
(source: `initialMinimums + extraPaymentAmount`, computed once before the loop). -/
def initialBudget (debts : List Debt) (extraPaymentAmount : ℚ) : ℚ :=
  ((workingCopy debts).foldl (fun s d => s + debtMinimum d) 0) + extraPaymentAmount

/-- The fixed monthly budget the engine establishes before the loop:
unused (`null` in the source, `0` here) for the minimum method, otherwise
`initialMinimums + extraPaymentAmount`. -/
def planBudget (debts : List Debt) (extraPaymentAmount : ℚ) : Method → ℚ
  | .minimum => 0
  | .avalanche => initialBudget debts extraPaymentAmount
  | .snowball => initialBudget debts extraPaymentAmount

/-- Source `calculateRepaymentPlan(debts, extraPaymentAmount, method)`:
`null` (here `none`) for an empty list, otherwise the completed simulation. -/
def calculateRepaymentPlan (debts : List Debt) (extraPaymentAmount : ℚ) (method : Method) :
    Option PlanResult :=
  if debts.isEmpty then none
  else
    let s := simulationLoop method (planBudget debts extraPaymentAmount method) 1200 0
      (workingCopy debts) ⟨0, 0⟩ []
    some { totalPaid := s.2.1.totalPaid, totalInterest := s.2.1.totalInterest,
           months := s.2.2.2, monthlyPayments := s.2.2.1 }

/-- Source `calculateMinimum(debts)`. -/
def calculateMinimum (debts : List Debt) : Option PlanResult :=
  calculateRepaymentPlan debts 0 .minimum

/-- Source `calculateAvalanche(debts, extraPayment)`. -/
def calculateAvalanche (debts : List Debt) (extraPayment : ℚ) : Option PlanResult :=
  calculateRepaymentPlan debts extraPayment .avalanche

/-- Source `calculateSnowball(debts, extraPayment)`. -/
def calculateSnowball (debts : List Debt) (extraPayment : ℚ) : Option PlanResult :=
  calculateRepaymentPlan debts extraPayment .snowball

/-! ### Specification-side definitions (for theorem statements) -/

/-- The total of the `payment` fields of a month's records. -/
def sumPayments (recs : List PayRecord) : ℚ :=
  (recs.map PayRecord.payment).sum

/-- The sum of this month's minimums over a debt list. -/
def minSum (ds : List Debt) : ℚ :=
  (ds.map debtMinimum).sum

/-- The `months` field of an optional result. -/
def monthsOf : Option PlanResult → Option Nat
  | none => none
  | some r => some r.months

/-- The monthly records of an optional result (empty when absent). -/
def monthlyRecordsOf : Option PlanResult → List MonthRecord
  | none => []
  | some r => r.monthlyPayments

/-- The run produced a result whose month count respects the 1200-month cap. -/
def withinCap : Option PlanResult → Prop
  | none => False
  | some r => r.months ≤ 1200

/-- The spec's validity invariants on a caller-supplied debt (§3 of the spec). -/
def ValidDebt (d : Debt) : Prop :=
  0 ≤ d.balance ∧ 0 ≤ d.apr ∧ 0 ≤ d.minPayment

/-- How one month of the engine relates a debt to its successor: all static
fields are preserved, a non-negative balance stays non-negative and never
increases, and a debt with no remaining balance is left untouched. -/
def StepRel (d d' : Debt) : Prop :=
  d'.id = d.id ∧ d'.apr = d.apr ∧ d'.minPayment = d.minPayment ∧
    d'.isCreditCard = d.isCreditCard ∧
    (0 ≤ d.balance → 0 ≤ d'.balance ∧ d'.balance ≤ d.balance) ∧
    (d.balance ≤ 0 → d' = d)

/-- Number of debts still carrying a positive balance. -/
def posCount (ds : List Debt) : Nat :=
  (ds.filter fun d => decide (0 < d.balance)).length

/-- Allocation loop written from the claim's words: repeatedly select the
priority debt among debts with balance > 0, pay `min(surplus, balance)`
(which removes a fully paid debt from consideration), and stop once the
surplus is exhausted to within one cent or no balance remains. Returns the
sequence of (debt index, amount) applications. -/
def specGreedy (select : List (Nat × Debt) → Option (Nat × Debt)) :
    Nat → ℚ → List Debt → List (Nat × ℚ)
  | 0, _, _ => []
  | fuel + 1, surplus, ds =>
    if 1 / 100 < surplus then
      match select (debtsWithBalance ds) with
      | none => []
      | some (i, pd) =>
        let pay := min surplus pd.balance
        (i, pay) ::
          specGreedy select fuel (surplus - pay)
            (modifyAt ds i fun d => { d with balance := d.balance - pay })
    else []

/-! ### Theorems -/

/-- C9: for every policy entry point, an empty debts list yields the sentinel
"no result" outcome (`null`, here `none`), not a zero-filled result: the engine
returns before any simulation work. -/
theorem claim_C9_empty_list_sentinel :
    calculateMinimum [] = none ∧ (∀ e : ℚ, calculateAvalanche [] e = none) ∧
      (∀ e : ℚ, calculateSnowball [] e = none) :=
  ⟨rfl, fun _ => rfl, fun _ => rfl⟩

unseal Rat.mul Rat.inv Rat.add Rat.sub in
/-- C7, counterexample: the engine performs no validation of negative balances
or APRs.  On a debt with balance −5 and APR −7 every entry point returns a
simulated result (months 0, empty ledger) instead of rejecting with a
descriptive failure before simulation, so the claim is false as stated. -/
theorem claim_C7_counterexample :
    calculateMinimum [⟨0, -5, -7, 10, false⟩] =
        some { totalPaid := 0, totalInterest := 0, months := 0, monthlyPayments := [] } ∧
      calculateAvalanche [⟨0, -5, -7, 10, false⟩] 5 =
        some { totalPaid := 0, totalInterest := 0, months := 0, monthlyPayments := [] } ∧
      calculateSnowball [⟨0, -5, -7, 10, false⟩] 5 =
        some { totalPaid := 0, totalInterest := 0, months := 0, monthlyPayments := [] } := by
  refine ⟨by decide, by decide, by decide⟩

/-- C7, amended: the engine's only boundary rejection is the empty debts list
(`null`); every non-empty debts list — including one containing debts with
negative balance or negative APR — produces a simulated result (a non-positive
balance is simply treated as already paid off). -/
theorem claim_C7_only_empty_rejected :
    ∀ (debts : List Debt) (e : ℚ),
      (calculateMinimum debts = none ↔ debts = []) ∧
        (calculateAvalanche debts e = none ↔ debts = []) ∧
        (calculateSnowball debts e = none ↔ debts = []) := by
  intro debts e
  have h : ∀ (x : ℚ) (m : Method), calculateRepaymentPlan debts x m = none ↔ debts = [] := by
    intro x m
    cases debts with
    | nil => simp [calculateRepaymentPlan]
    | cons d ds => simp [calculateRepaymentPlan]
  exact ⟨h 0 .minimum, h e .avalanche, h e .snowball⟩

unseal Rat.mul Rat.inv Rat.add Rat.sub in
/-- C2: divergence witness for the zero-extra-budget equivalence.  On two 0%‑APR
installment debts (balances 100/100, minimums 30/10) the avalanche and snowball
runs with extra budget 0 still use the fixed-budget engine: once debt A's final
month needs only 10 of its 30 minimum, the spare 20 becomes an extra payment to
debt B, so both finish in 5 months, while the minimum-only plan needs 10 — the
claim requires all three month counts to be identical. -/
theorem claim_C2_zero_extra_divergence :
    monthsOf (calculateAvalanche [⟨0, 100, 0, 30, false⟩, ⟨1, 100, 0, 10, false⟩] 0) = some 5 ∧
      monthsOf (calculateSnowball [⟨0, 100, 0, 30, false⟩, ⟨1, 100, 0, 10, false⟩] 0) = some 5 ∧
      monthsOf (calculateMinimum [⟨0, 100, 0, 30, false⟩, ⟨1, 100, 0, 10, false⟩]) = some 10 := by
  refine ⟨by decide, by decide, by decide⟩

unseal Rat.mul Rat.inv Rat.add Rat.sub in
/-- C5, counterexample: the exactly-1200-months outcome does not hold for every
entry point.  An installment debt with balance 100, APR 1200% (monthly interest
100) and fixed minimum 10 < 100 satisfies the claim's hypothesis, yet an
avalanche run with extra budget 1000 pays the balance off directly in the
surplus phase (which bypasses interest) and completes in month 1, not 1200. -/
theorem claim_C5_counterexample :
    (10 : ℚ) < 100 * ((1200 / 100) / 12) ∧
      monthsOf (calculateAvalanche [⟨0, 100, 1200, 10, false⟩] 1000) = some 1 := by
  refine ⟨by decide, by decide⟩

unseal Rat.mul Rat.inv Rat.add Rat.sub in
/-- C4, counterexample: the snowball selection does not pick the strictly
lowest balance — balances within one cent are treated as tied and the tie goes
to the higher APR.  After month 1's minimum payments debt 0 has balance
102.195 and debt 1 has 102.2 (a 0.005 gap) with the higher APR, and the whole
30 surplus goes to debt 1 (record: payment 40, extra 30, balance 72.2) while
the strictly-lower-balance debt 0 receives none (balance 102.195 < 72.2 + 30). -/
theorem claim_C4_counterexample :
    (calculateSnowball [⟨0, 22439/200, 0, 10, false⟩, ⟨1, 110, 24, 10, false⟩] 30).map
        (fun r => r.monthlyPayments.head?.map fun mr =>
          mr.debtPayments.map fun p => (p.extraPayment, p.balance)) =
      some (some [(0, 20439/200), (30, 361/5)]) ∧
      (20439 : ℚ)/200 < 361/5 + 30 := by
  refine ⟨by decide, by decide⟩

/-! ### Lemmas on the simulation loop -/

lemma simulationLoop_out_acc (m : Method) (b : ℚ) :
    ∀ (fuel mc : Nat) (ds : List Debt) (t : Totals) (acc : List MonthRecord),
      (simulationLoop m b fuel mc ds t acc).2.2.1
        = acc ++ (simulationLoop m b fuel mc ds t []).2.2.1 := by
  intro fuel
  induction fuel with
  | zero => intro mc ds t acc; simp [simulationLoop]
  | succ n ih =>
    intro mc ds t acc
    by_cases h : (ds.any fun d => decide (0 < d.balance)) = true
    · rw [simulationLoop, if_pos h, simulationLoop, if_pos h]
      dsimp only
      rw [ih, ih (mc + 1) _ _ ([] ++ [_])]
      simp
    · rw [simulationLoop, if_neg h, simulationLoop, if_neg h]
      simp

lemma simulationLoop_stop (m : Method) (b : ℚ) (fuel mc : Nat) (ds : List Debt)
    (t : Totals) (acc : List MonthRecord)
    (h : ¬((ds.any fun d => decide (0 < d.balance)) = true)) :
    simulationLoop m b fuel mc ds t acc = (ds, t, acc, mc) := by
  cases fuel with
  | zero => rfl
  | succ n => rw [simulationLoop, if_neg h]

lemma simulationLoop_step (m : Method) (b : ℚ) (fuel mc : Nat) (ds : List Debt)
    (t : Totals) (acc : List MonthRecord)
    (h : (ds.any fun d => decide (0 < d.balance)) = true) :
    simulationLoop m b (fuel + 1) mc ds t acc =
      simulationLoop m b fuel (mc + 1) (monthStep m b ds t).1 (monthStep m b ds t).2.2
        (acc ++ [{ month := mc + 1, debtPayments := (monthStep m b ds t).2.1,
                   totalPaid := (monthStep m b ds t).2.2.totalPaid,
                   remainingDebt := (monthStep m b ds t).1.foldl (fun s d => s + d.balance) 0 }]) := by
  rw [simulationLoop, if_pos h]

/-- The month counter grows by at most the remaining fuel. -/
lemma simulationLoop_months_le (m : Method) (b : ℚ) :
    ∀ (fuel mc : Nat) (ds : List Debt) (t : Totals) (acc : List MonthRecord),
      (simulationLoop m b fuel mc ds t acc).2.2.2 ≤ mc + fuel := by
  intro fuel
  induction fuel with
  | zero => intro mc ds t acc; simp [simulationLoop]
  | succ n ih =>
    intro mc ds t acc
    by_cases h : (ds.any fun d => decide (0 < d.balance)) = true
    · rw [simulationLoop_step m b n mc ds t acc h]
      calc (simulationLoop m b n (mc + 1) _ _ _).2.2.2 ≤ (mc + 1) + n := ih (mc + 1) _ _ _
        _ = mc + (n + 1) := by omega
    · rw [simulationLoop_stop m b _ mc ds t acc h]; dsimp only; omega

/-- Symbolic shape of a non-empty run's result: the plan is `some` of the four
projections of the simulation loop, without evaluating the loop. -/
lemma calculateRepaymentPlan_cons (d : Debt) (ds : List Debt) (e : ℚ) (m : Method) :
    calculateRepaymentPlan (d :: ds) e m =
      some { totalPaid :=
               (simulationLoop m (planBudget (d :: ds) e m) 1200 0 (workingCopy (d :: ds)) ⟨0, 0⟩ []).2.1.totalPaid,
             totalInterest :=
               (simulationLoop m (planBudget (d :: ds) e m) 1200 0 (workingCopy (d :: ds)) ⟨0, 0⟩ []).2.1.totalInterest,
             months :=
               (simulationLoop m (planBudget (d :: ds) e m) 1200 0 (workingCopy (d :: ds)) ⟨0, 0⟩ []).2.2.2,
             monthlyPayments :=
               (simulationLoop m (planBudget (d :: ds) e m) 1200 0 (workingCopy (d :: ds)) ⟨0, 0⟩ []).2.2.1 } := by
  rw [calculateRepaymentPlan]
  rw [if_neg (by simp)]

/-- The records of a non-empty run, as a projection of the simulation loop. -/
lemma monthlyRecordsOf_plan (d : Debt) (ds : List Debt) (e : ℚ) (m : Method) :
    monthlyRecordsOf (calculateRepaymentPlan (d :: ds) e m) =
      (simulationLoop m (planBudget (d :: ds) e m) 1200 0 (workingCopy (d :: ds)) ⟨0, 0⟩ []).2.2.1 := by
  rw [calculateRepaymentPlan_cons, monthlyRecordsOf]

/-- The month count of a non-empty run, as a projection of the simulation loop. -/
lemma monthsOf_plan (d : Debt) (ds : List Debt) (e : ℚ) (m : Method) :
    monthsOf (calculateRepaymentPlan (d :: ds) e m) =
      some ((simulationLoop m (planBudget (d :: ds) e m) 1200 0 (workingCopy (d :: ds)) ⟨0, 0⟩ []).2.2.2) := by
  rw [calculateRepaymentPlan_cons, monthsOf]

unseal Rat.mul Rat.inv Rat.add Rat.sub in
/-- C3: the unified engine computes the revolving minimum on the pre-interest
balance and never capitalizes interest.  For the single revolving debt with
balance 1000 and 24% APR, the month-1 record reports a minimum of exactly
30 = 0.01·1000 + 1000·0.02 (not 30.60 computed on a post-interest balance of
1020), a payment of 30, interest 20 charged without being added to the
balance, and a resulting balance of 990 = 1000 − (30 − 20). -/
theorem claim_C3_month1_minimum :
    (monthlyRecordsOf (calculateMinimum [⟨0, 1000, 24, 0, true⟩])).head? =
      some { month := 1,
             debtPayments := [{ debtId := 0, payment := 30, minimumPayment := 30,
                                extraPayment := 0, balance := 990, interestCharged := 20 }],
             totalPaid := 30, remainingDebt := 990 } := by
  have hguard : (((workingCopy [⟨0, 1000, 24, 0, true⟩]).any fun d => decide (0 < d.balance)) = true) := by
    decide
  rw [calculateMinimum, monthlyRecordsOf_plan]
  have h1200 : (1200 : Nat) = 1199 + 1 := rfl
  rw [h1200, simulationLoop_step .minimum (planBudget [⟨0, 1000, 24, 0, true⟩] 0 .minimum) 1199 0
    (workingCopy [⟨0, 1000, 24, 0, true⟩]) ⟨0, 0⟩ [] hguard]
  rw [simulationLoop_out_acc, List.nil_append, List.singleton_append, List.head?_cons]
  have hmr : (monthStep .minimum (planBudget [⟨0, 1000, 24, 0, true⟩] 0 .minimum)
      (workingCopy [⟨0, 1000, 24, 0, true⟩]) ⟨0, 0⟩).2.1 =
      [{ debtId := 0, payment := 30, minimumPayment := 30, extraPayment := 0,
         balance := 990, interestCharged := 20 }] := by decide
  have hpaid : (monthStep .minimum (planBudget [⟨0, 1000, 24, 0, true⟩] 0 .minimum)
      (workingCopy [⟨0, 1000, 24, 0, true⟩]) ⟨0, 0⟩).2.2.totalPaid = 30 := by decide
  have hrem : (monthStep .minimum (planBudget [⟨0, 1000, 24, 0, true⟩] 0 .minimum)
      (workingCopy [⟨0, 1000, 24, 0, true⟩]) ⟨0, 0⟩).1.foldl
      (fun s d => s + d.balance) 0 = 990 := by decide
  rw [hmr, hpaid, hrem]

/-! ### A debt whose applied payment is below its interest is stuck -/

/-- When the applied payment `min pay balance` does not cover the month's
interest, the principal portion is clamped to zero: the debt (hence its
balance) is unchanged, the record's balance equals the old balance, and the
full monthly interest is still accumulated. -/
lemma processMonthlyDebtPayment_stuck (d : Debt) (pay : ℚ) (t : Totals)
    (hpos : 0 < d.balance) (hlt : min pay d.balance < d.balance * (d.apr / 12)) :
    (processMonthlyDebtPayment d pay t).2.1 = d ∧
      (processMonthlyDebtPayment d pay t).1.balance = d.balance ∧
      (processMonthlyDebtPayment d pay t).2.2.totalInterest =
        t.totalInterest + d.balance * (d.apr / 12) := by
  have h1 : max 0 (min pay d.balance - d.balance * (d.apr / 12)) = 0 :=
    max_eq_left (le_of_lt (sub_neg.mpr hlt))
  rw [processMonthlyDebtPayment, if_neg (not_le.mpr hpos)]
  dsimp only
  rw [h1, sub_zero, max_eq_right (le_of_lt hpos)]
  exact ⟨rfl, rfl, rfl⟩

/-- In a minimum-only month, a non-revolving debt with positive balance whose
fixed minimum is below its monthly interest is left exactly unchanged, and its
record reports the unchanged balance. -/
lemma processMinimumMonth_stuck :
    ∀ (ds : List Debt) (t : Totals) (j : Nat) (d : Debt),
      ds.get? j = some d → d.isCreditCard = false → 0 < d.balance →
      d.minPayment < d.balance * (d.apr / 12) →
      (processMinimumMonth ds t).1.get? j = some d ∧
        ∃ p, (processMinimumMonth ds t).2.1.get? j = some p ∧ p.balance = d.balance := by
  intro ds
  induction ds with
  | nil => intro t j d hj; simp at hj
  | cons a rest ih =>
    intro t j d hj hcc hpos hlt
    cases j with
    | zero =>
      have ha : a = d := by simpa using hj
      subst ha
      have hmin : debtMinimum a = a.minPayment := by rw [debtMinimum, if_neg (by simp [hcc])]
      have hstuck := processMonthlyDebtPayment_stuck a (debtMinimum a) t hpos
        (lt_of_le_of_lt (min_le_left _ _) (by rw [hmin]; exact hlt))
      rw [processMinimumMonth, if_neg (not_le.mpr hpos)]
      dsimp only
      refine ⟨by rw [List.get?_cons_zero, hstuck.1], ⟨_, by rw [List.get?_cons_zero], ?_⟩⟩
      exact hstuck.2.1
    | succ n =>
      have hj' : rest.get? n = some d := by simpa using hj
      rw [processMinimumMonth]
      by_cases hb : a.balance ≤ 0
      · rw [if_pos hb]
        dsimp only
        rcases ih t n d hj' hcc hpos hlt with ⟨h1, p, h2, h3⟩
        exact ⟨by simpa using h1, ⟨p, by simpa using h2, h3⟩⟩
      · rw [if_neg hb]
        dsimp only
        rcases ih (processMonthlyDebtPayment a (debtMinimum a) t).2.2 n d hj' hcc hpos hlt with
          ⟨h1, p, h2, h3⟩
        exact ⟨by simpa using h1, ⟨p, by simpa using h2, h3⟩⟩

/-- A positive-balance debt at a valid index makes the loop guard true. -/
lemma any_pos_of_get? {ds : List Debt} {j : Nat} {d : Debt}
    (hj : ds.get? j = some d) (hpos : 0 < d.balance) :
    (ds.any fun x => decide (0 < x.balance)) = true := by
  refine List.any_eq_true.mpr ⟨d, ?_, by simpa using hpos⟩
  exact List.get?_mem hj

/-- A minimum-only run containing a stuck debt consumes all its fuel (one month
per unit), and every month's record shows the stuck debt's unchanged balance. -/
lemma simulationLoop_stuck (b : ℚ) :
    ∀ (fuel mc : Nat) (ds : List Debt) (t : Totals) (acc : List MonthRecord) (j : Nat) (d : Debt),
      ds.get? j = some d → d.isCreditCard = false → 0 < d.balance →
      d.minPayment < d.balance * (d.apr / 12) →
      (simulationLoop .minimum b fuel mc ds t acc).2.2.2 = mc + fuel ∧
        ∀ mr ∈ (simulationLoop .minimum b fuel mc ds t acc).2.2.1,
          mr ∈ acc ∨ ∃ p, mr.debtPayments.get? j = some p ∧ p.balance = d.balance := by
  intro fuel
  induction fuel with
  | zero =>
    intro mc ds t acc j d hj hcc hpos hlt
    constructor
    · rfl
    · intro mr hmr; exact Or.inl hmr
  | succ n ih =>
    intro mc ds t acc j d hj hcc hpos hlt
    have hguard := any_pos_of_get? hj hpos
    rw [simulationLoop_step .minimum b n mc ds t acc hguard]
    have hms : monthStep .minimum b ds t = processMinimumMonth ds t := rfl
    rcases processMinimumMonth_stuck ds t j d hj hcc hpos hlt with ⟨hd', p, hp, hpb⟩
    rcases ih (mc + 1) (monthStep .minimum b ds t).1 (monthStep .minimum b ds t).2.2
        (acc ++ [_]) j d (by rw [hms]; exact hd') hcc hpos hlt with ⟨hm, hrecs⟩
    constructor
    · rw [hm]; omega
    · intro mr hmr
      rcases hrecs mr hmr with hacc | hgood
      · rcases List.mem_append.mp hacc with h | h
        · exact Or.inl h
        · right
          have hmr1 := List.mem_singleton.mp h
          subst hmr1
          refine ⟨p, ?_, hpb⟩
          dsimp only
          rw [hms]
          exact hp
      · exact Or.inr hgood

/-- C10: in `processMonthlyDebtPayment`, an applied payment below the month's
interest has its principal portion clamped to zero, so the balance is exactly
unchanged while the full monthly interest is still added to `totalInterest`;
consequently a minimum-only run on a non-revolving debt whose fixed minimum is
below its monthly interest (APR given as a percentage, so monthly interest is
`balance·((apr/100)/12)`) records the identical balance in every one of the
1200 months of the capped run. -/
theorem claim_C10_no_capitalization :
    (∀ (d : Debt) (pay : ℚ) (t : Totals), 0 < d.balance →
        min pay d.balance < d.balance * (d.apr / 12) →
        (processMonthlyDebtPayment d pay t).2.1.balance = d.balance ∧
          (processMonthlyDebtPayment d pay t).2.2.totalInterest =
            t.totalInterest + d.balance * (d.apr / 12)) ∧
    (∀ (debts : List Debt) (j : Nat) (d : Debt),
        debts.get? j = some d → d.isCreditCard = false → 0 < d.balance →
        d.minPayment < d.balance * ((d.apr / 100) / 12) →
        monthsOf (calculateMinimum debts) = some 1200 ∧
          ∀ mr ∈ monthlyRecordsOf (calculateMinimum debts),
            ∃ p, mr.debtPayments.get? j = some p ∧ p.balance = d.balance) := by
  constructor
  · intro d pay t hpos hlt
    have h := processMonthlyDebtPayment_stuck d pay t hpos hlt
    exact ⟨by rw [h.1], h.2.2⟩
  · intro debts j d hj hcc hpos hlt
    cases debts with
    | nil => simp at hj
    | cons d0 ds0 =>
      have hwj : (workingCopy (d0 :: ds0)).get? j = some { d with apr := d.apr / 100 } := by
        rw [workingCopy, List.get?_map, hj]; rfl
      have hstuck := simulationLoop_stuck (planBudget (d0 :: ds0) 0 .minimum) 1200 0
        (workingCopy (d0 :: ds0)) ⟨0, 0⟩ [] j { d with apr := d.apr / 100 }
        hwj hcc hpos hlt
      rw [calculateMinimum, monthsOf_plan, monthlyRecordsOf_plan]
      constructor
      · rw [hstuck.1]
      · intro mr hmr
        rcases hstuck.2 mr hmr with h | h
        · simp at h
        · exact h

unseal Rat.mul Rat.inv Rat.add Rat.sub in
/-- Witness for C10: a concrete stuck debt (balance 200, 12% decimal rate as
passed directly to the per-debt function, payment 5 below the 200·(12/12)
interest), and a concrete minimum-only run aborting with the full 1200 months. -/
theorem claim_C10_witness :
    ((0 : ℚ) < (⟨0, 200, 12, 5, false⟩ : Debt).balance) ∧
      ((processMonthlyDebtPayment ⟨0, 200, 12, 5, false⟩ 5 ⟨0, 0⟩).2.1.balance =
          (⟨0, 200, 12, 5, false⟩ : Debt).balance ∧
        (processMonthlyDebtPayment ⟨0, 200, 12, 5, false⟩ 5 ⟨0, 0⟩).2.2.totalInterest =
          (⟨0, 0⟩ : Totals).totalInterest +
            (⟨0, 200, 12, 5, false⟩ : Debt).balance * ((⟨0, 200, 12, 5, false⟩ : Debt).apr / 12)) ∧
      monthsOf (calculateMinimum [⟨0, 300, 600, 2, false⟩]) = some 1200 :=
  ⟨by decide,
   claim_C10_no_capitalization.1 ⟨0, 200, 12, 5, false⟩ 5 ⟨0, 0⟩ (by decide) (by decide),
   (claim_C10_no_capitalization.2 [⟨0, 300, 600, 2, false⟩] 0 ⟨0, 300, 600, 2, false⟩ rfl rfl
     (by decide) (by decide)).1⟩

/-- C5 (amended): every entry point terminates within the 1200-month cap on a
non-empty debts list, and a minimum-only run on a debts list containing an
installment debt whose fixed minimum is below its monthly interest aborts with
months exactly 1200 (for avalanche/snowball the surplus phase can pay such a
debt off early — see the counterexample). -/
theorem claim_C5_termination_amended :
    (∀ (debts : List Debt) (e : ℚ), debts ≠ [] →
        withinCap (calculateMinimum debts) ∧ withinCap (calculateAvalanche debts e) ∧
          withinCap (calculateSnowball debts e)) ∧
    (∀ (debts : List Debt) (j : Nat) (d : Debt),
        debts.get? j = some d → d.isCreditCard = false → 0 < d.balance →
        d.minPayment < d.balance * ((d.apr / 100) / 12) →
        monthsOf (calculateMinimum debts) = some 1200) := by
  constructor
  · intro debts e hne
    cases debts with
    | nil => exact absurd rfl hne
    | cons d0 ds0 =>
      have hcap : ∀ (m : Method) (e' : ℚ), withinCap (calculateRepaymentPlan (d0 :: ds0) e' m) := by
        intro m e'
        rw [calculateRepaymentPlan_cons]
        simp only [withinCap]
        have h := simulationLoop_months_le m (planBudget (d0 :: ds0) e' m) 1200 0
          (workingCopy (d0 :: ds0)) ⟨0, 0⟩ []
        omega
      exact ⟨hcap .minimum 0, hcap .avalanche e, hcap .snowball e⟩
  · intro debts j d hj hcc hpos hlt
    cases debts with
    | nil => simp at hj
    | cons d0 ds0 =>
      have hwj : (workingCopy (d0 :: ds0)).get? j = some { d with apr := d.apr / 100 } := by
        rw [workingCopy, List.get?_map, hj]; rfl
      have hstuck := simulationLoop_stuck (planBudget (d0 :: ds0) 0 .minimum) 1200 0
        (workingCopy (d0 :: ds0)) ⟨0, 0⟩ [] j { d with apr := d.apr / 100 }
        hwj hcc hpos hlt
      rw [calculateMinimum, monthsOf_plan, hstuck.1]

/-! ### Generic list lemmas -/

lemma forall₂_get?_left {α β : Type} {R : α → β → Prop} :
    ∀ {as : List α} {bs : List β}, List.Forall₂ R as bs →
      ∀ {i : Nat} {a : α}, as.get? i = some a → ∃ b, bs.get? i = some b ∧ R a b := by
  intro as bs h
  induction h with
  | nil => intro i a ha; simp at ha
  | cons hr hrest ih =>
    intro i a ha
    cases i with
    | zero =>
      rw [List.get?_cons_zero] at ha
      cases ha
      exact ⟨_, List.get?_cons_zero, hr⟩
    | succ n =>
      rw [List.get?_cons_succ] at ha
      rcases ih ha with ⟨b, hb, hab⟩
      exact ⟨b, by rw [List.get?_cons_succ]; exact hb, hab⟩

lemma forall₂_get?_right {α β : Type} {R : α → β → Prop} :
    ∀ {as : List α} {bs : List β}, List.Forall₂ R as bs →
      ∀ {i : Nat} {b : β}, bs.get? i = some b → ∃ a, as.get? i = some a ∧ R a b := by
  intro as bs h
  induction h with
  | nil => intro i b hb; simp at hb
  | cons hr hrest ih =>
    intro i b hb
    cases i with
    | zero =>
      rw [List.get?_cons_zero] at hb
      cases hb
      exact ⟨_, List.get?_cons_zero, hr⟩
    | succ n =>
      rw [List.get?_cons_succ] at hb
      rcases ih hb with ⟨a, ha, hab⟩
      exact ⟨a, by rw [List.get?_cons_succ]; exact ha, hab⟩

lemma forall₂_mem_right {α β : Type} {R : α → β → Prop} :
    ∀ {as : List α} {bs : List β}, List.Forall₂ R as bs →
      ∀ {b : β}, b ∈ bs → ∃ a, a ∈ as ∧ R a b := by
  intro as bs h
  induction h with
  | nil => intro b hb; simp at hb
  | cons hr hrest ih =>
    intro b hb
    rcases List.mem_cons.mp hb with hb | hb
    · subst hb; exact ⟨_, List.mem_cons_self _ _, hr⟩
    · rcases ih hb with ⟨a, ha, hab⟩
      exact ⟨a, List.mem_cons_of_mem _ ha, hab⟩

lemma forall₂_comp {α β γ : Type} {R : α → β → Prop} {S : β → γ → Prop} {T : α → γ → Prop}
    (hT : ∀ a b c, R a b → S b c → T a c) :
    ∀ {as : List α} {bs : List β} {cs : List γ},
      List.Forall₂ R as bs → List.Forall₂ S bs cs → List.Forall₂ T as cs := by
  intro as bs cs h1
  induction h1 generalizing cs with
  | nil => intro h2; cases h2; exact .nil
  | cons hr h1 ih =>
    intro h2
    cases h2 with
    | cons hs h2 => exact .cons (hT _ _ _ hr hs) (ih h2)

lemma forall₂_modifyAt {α β : Type} {R : α → β → Prop} (f : α → α) (g : β → β) :
    ∀ {as : List α} {bs : List β}, List.Forall₂ R as bs →
      ∀ (i : Nat), (∀ a b, as.get? i = some a → bs.get? i = some b → R (f a) (g b)) →
      List.Forall₂ R (modifyAt as i f) (modifyAt bs i g) := by
  intro as bs h
  induction h with
  | nil => intro i _; exact .nil
  | cons hr hrest ih =>
    intro i hfg
    cases i with
    | zero =>
      show List.Forall₂ R (f _ :: _) (g _ :: _)
      exact .cons (hfg _ _ List.get?_cons_zero List.get?_cons_zero) hrest
    | succ n =>
      show List.Forall₂ R (_ :: modifyAt _ n f) (_ :: modifyAt _ n g)
      exact .cons hr (ih n fun a b ha hb =>
        hfg a b (by rw [List.get?_cons_succ]; exact ha) (by rw [List.get?_cons_succ]; exact hb))

lemma forall₂_self_modifyAt {α : Type} {R : α → α → Prop} (f : α → α)
    (hrefl : ∀ x, R x x) :
    ∀ (as : List α) (i : Nat), (∀ a, as.get? i = some a → R a (f a)) →
      List.Forall₂ R as (modifyAt as i f) := by
  intro as
  induction as with
  | nil => intro i _; exact .nil
  | cons x xs ih =>
    intro i hf
    cases i with
    | zero =>
      show List.Forall₂ R (x :: xs) (f x :: xs)
      exact .cons (hf x List.get?_cons_zero) (List.forall₂_same.mpr fun y _ => hrefl y)
    | succ n =>
      show List.Forall₂ R (x :: xs) (x :: modifyAt xs n f)
      exact .cons (hrefl x) (ih n fun a ha => hf a (by rw [List.get?_cons_succ]; exact ha))

lemma mem_withIndexFrom {α : Type} :
    ∀ {l : List α} {k i : Nat} {a : α}, (i, a) ∈ withIndexFrom k l →
      k ≤ i ∧ l.get? (i - k) = some a := by
  intro l
  induction l with
  | nil => intro k i a h; simp [withIndexFrom] at h
  | cons x xs ih =>
    intro k i a h
    rw [withIndexFrom] at h
    rcases List.mem_cons.mp h with h | h
    · rcases Prod.mk.injEq .. ▸ h with ⟨h1, h2⟩
      subst h1; subst h2
      simp
    · rcases ih h with ⟨hk, hget⟩
      have hk' : k ≤ i := by omega
      have harith : i - k = (i - (k + 1)) + 1 := by omega
      refine ⟨hk', ?_⟩
      rw [harith, List.get?_cons_succ]
      exact hget

lemma mem_debtsWithBalance {ds : List Debt} {i : Nat} {d : Debt}
    (h : (i, d) ∈ debtsWithBalance ds) : ds.get? i = some d ∧ 0 < d.balance := by
  rw [debtsWithBalance] at h
  have h1 := List.mem_of_mem_filter h
  have h2 := List.of_mem_filter h
  rcases mem_withIndexFrom h1 with ⟨_, hget⟩
  refine ⟨by simpa using hget, by simpa using h2⟩

lemma selectAvalanche_mem : ∀ {l : List (Nat × Debt)} {p : Nat × Debt},
    selectAvalanche l = some p → p ∈ l := by
  intro l
  induction l with
  | nil => intro p h; simp [selectAvalanche] at h
  | cons x xs ih =>
    intro p h
    rw [selectAvalanche] at h
    cases hx : selectAvalanche xs with
    | none =>
      rw [hx] at h
      cases h
      exact List.mem_cons_self _ _
    | some q =>
      rw [hx] at h
      dsimp only at h
      by_cases hgt : q.2.apr > x.2.apr
      · rw [if_pos hgt] at h
        cases h
        exact List.mem_cons_of_mem _ (ih hx)
      · rw [if_neg hgt] at h
        cases h
        exact List.mem_cons_self _ _

lemma selectSnowball_mem : ∀ {l : List (Nat × Debt)} {p : Nat × Debt},
    selectSnowball l = some p → p ∈ l := by
  intro l
  induction l with
  | nil => intro p h; simp [selectSnowball] at h
  | cons x xs ih =>
    intro p h
    rw [selectSnowball] at h
    cases hx : selectSnowball xs with
    | none =>
      rw [hx] at h
      cases h
      exact List.mem_cons_self _ _
    | some q =>
      rw [hx] at h
      dsimp only at h
      by_cases hlt : snowballLt q.2 x.2 = true
      · rw [if_pos hlt] at h
        cases h
        exact List.mem_cons_of_mem _ (ih hx)
      · rw [if_neg hlt] at h
        cases h
        exact List.mem_cons_self _ _

lemma selectPriority_mem {m : Method} {l : List (Nat × Debt)} {p : Nat × Debt}
    (h : selectPriority m l = some p) : p ∈ l := by
  cases m with
  | minimum => exact absurd h (by rw [selectPriority]; exact Option.noConfusion)
  | avalanche => exact selectAvalanche_mem h
  | snowball => exact selectSnowball_mem h

/-! ### One month relates debts to their successors by StepRel -/

lemma StepRel_refl (d : Debt) : StepRel d d :=
  ⟨rfl, rfl, rfl, rfl, fun h => ⟨h, le_refl _⟩, fun _ => rfl⟩

lemma StepRel_trans {a b c : Debt} (h1 : StepRel a b) (h2 : StepRel b c) : StepRel a c := by
  obtain ⟨i1, a1, m1, c1, bal1, z1⟩ := h1
  obtain ⟨i2, a2, m2, c2, bal2, z2⟩ := h2
  refine ⟨i2.trans i1, a2.trans a1, m2.trans m1, c2.trans c1, ?_, ?_⟩
  · intro h
    rcases bal1 h with ⟨hb1, hb2⟩
    rcases bal2 hb1 with ⟨hc1, hc2⟩
    exact ⟨hc1, hc2.trans hb2⟩
  · intro h
    have hb := z1 h
    rw [z2 (by rw [hb]; exact h), hb]

lemma processMonthlyDebtPayment_rel (d : Debt) (pay : ℚ) (t : Totals) :
    StepRel d (processMonthlyDebtPayment d pay t).2.1 ∧
      (processMonthlyDebtPayment d pay t).1.balance =
        max 0 (processMonthlyDebtPayment d pay t).2.1.balance := by
  by_cases hb : d.balance ≤ 0
  · rw [processMonthlyDebtPayment, if_pos hb]
    refine ⟨StepRel_refl d, ?_⟩
    dsimp only [zeroRecord]
    exact (max_eq_left hb).symm
  · rw [processMonthlyDebtPayment, if_neg hb]
    dsimp only
    constructor
    · refine ⟨rfl, rfl, rfl, rfl, ?_, ?_⟩
      · intro h0
        refine ⟨le_max_left 0 _, max_le h0 ?_⟩
        have hsafe : (0:ℚ) ≤ max 0 (min pay d.balance - d.balance * (d.apr / 12)) :=
          le_max_left 0 _
        linarith
      · intro h0; exact absurd h0 hb
    · exact (max_eq_right (le_max_left 0 _)).symm

lemma processMinimumMonth_rel : ∀ (ds : List Debt) (t : Totals),
    List.Forall₂ StepRel ds (processMinimumMonth ds t).1 ∧
      List.Forall₂ (fun x r => r.balance = max 0 x.balance)
        (processMinimumMonth ds t).1 (processMinimumMonth ds t).2.1 := by
  intro ds
  induction ds with
  | nil => intro t; exact ⟨.nil, .nil⟩
  | cons a rest ih =>
    intro t
    by_cases hb : a.balance ≤ 0
    · rw [processMinimumMonth, if_pos hb]
      dsimp only
      refine ⟨.cons (StepRel_refl a) (ih t).1, .cons ?_ (ih t).2⟩
      dsimp only [zeroRecord]
      exact (max_eq_left hb).symm
    · rw [processMinimumMonth, if_neg hb]
      dsimp only
      have hp := processMonthlyDebtPayment_rel a (debtMinimum a) t
      exact ⟨.cons hp.1 (ih _).1, .cons hp.2 (ih _).2⟩

lemma applyMinimumPayments_rel : ∀ (ds : List Debt) (t : Totals) (avail : ℚ),
    List.Forall₂ StepRel ds (applyMinimumPayments ds t avail).1 ∧
      List.Forall₂ (fun x r => r.balance = max 0 x.balance)
        (applyMinimumPayments ds t avail).1 (applyMinimumPayments ds t avail).2.1 := by
  intro ds
  induction ds with
  | nil => intro t avail; exact ⟨.nil, .nil⟩
  | cons a rest ih =>
    intro t avail
    by_cases hb : a.balance ≤ 0
    · rw [applyMinimumPayments, if_pos hb]
      dsimp only
      refine ⟨.cons (StepRel_refl a) (ih t avail).1, .cons ?_ (ih t avail).2⟩
      dsimp only [zeroRecord]
      exact (max_eq_left hb).symm
    · rw [applyMinimumPayments, if_neg hb]
      dsimp only
      have hp := processMonthlyDebtPayment_rel a (min (debtMinimum a) a.balance) t
      exact ⟨.cons hp.1 (ih _ _).1, .cons hp.2 (ih _ _).2⟩

lemma allocateExtra_rel (m : Method) : ∀ (fuel : Nat) (avail : ℚ) (ds : List Debt)
    (recs : List PayRecord) (t : Totals),
    List.Forall₂ StepRel ds (allocateExtra m fuel avail ds recs t).1 ∧
      (List.Forall₂ (fun x r => r.balance = max 0 x.balance) ds recs →
        List.Forall₂ (fun x r => r.balance = max 0 x.balance)
          (allocateExtra m fuel avail ds recs t).1 (allocateExtra m fuel avail ds recs t).2.1) := by
  intro fuel
  induction fuel with
  | zero =>
    intro avail ds recs t
    exact ⟨List.forall₂_same.mpr fun x _ => StepRel_refl x, fun h => h⟩
  | succ n ih =>
    intro avail ds recs t
    rw [allocateExtra]
    by_cases hav : (1:ℚ)/100 < avail
    · rw [if_pos hav]
      cases hsel : selectPriority m (debtsWithBalance ds) with
      | none =>
        exact ⟨List.forall₂_same.mpr fun x _ => StepRel_refl x, fun h => h⟩
      | some ip =>
        obtain ⟨i, pd⟩ := ip
        dsimp only
        rcases mem_debtsWithBalance (selectPriority_mem hsel) with ⟨hget, hpos⟩
        have hnb0 : (0:ℚ) ≤ (if pd.balance - min avail pd.balance < 1/100 then 0
            else pd.balance - min avail pd.balance) := by
          split
          · exact le_refl 0
          · have := min_le_right avail pd.balance
            linarith
        have hnble : (if pd.balance - min avail pd.balance < 1/100 then (0:ℚ)
            else pd.balance - min avail pd.balance) ≤ pd.balance := by
          have hmin0 : (0:ℚ) ≤ min avail pd.balance :=
            le_min (by linarith) (le_of_lt hpos)
          split
          · exact le_of_lt hpos
          · linarith
        have hds' : List.Forall₂ StepRel ds
            (modifyAt ds i fun d =>
              { d with balance := if pd.balance - min avail pd.balance < 1/100 then 0
                  else pd.balance - min avail pd.balance }) := by
          refine forall₂_self_modifyAt _ StepRel_refl ds i fun a ha => ?_
          have haeq : a = pd := by rw [ha] at hget; exact Option.some.inj hget
          subst haeq
          refine ⟨rfl, rfl, rfl, rfl, fun _ => ⟨hnb0, hnble⟩, fun hle => absurd hpos (not_lt.mpr hle)⟩
        refine ⟨@forall₂_comp _ _ _ StepRel StepRel StepRel (fun _ _ _ h1 h2 => StepRel_trans h1 h2) _ _ _ hds' (ih _ _ _ _).1, ?_⟩
        intro hsync
        refine (ih _ _ _ _).2 ?_
        refine forall₂_modifyAt _ _ hsync i fun a b ha hb => ?_
        dsimp only
        exact (max_eq_right hnb0).symm
    · rw [if_neg hav]
      exact ⟨List.forall₂_same.mpr fun x _ => StepRel_refl x, fun h => h⟩

/-- The avalanche/snowball branch of a month, written with projections. -/
lemma monthStep_strategy (m : Method) (hm : m ≠ .minimum) (b : ℚ) (ds : List Debt) (t : Totals) :
    monthStep m b ds t =
      ((allocateExtra m (ds.length + 1) (applyMinimumPayments ds t b).2.2.2
          (applyMinimumPayments ds t b).1 (applyMinimumPayments ds t b).2.1
          (applyMinimumPayments ds t b).2.2.1).1,
       (allocateExtra m (ds.length + 1) (applyMinimumPayments ds t b).2.2.2
          (applyMinimumPayments ds t b).1 (applyMinimumPayments ds t b).2.1
          (applyMinimumPayments ds t b).2.2.1).2.1,
       (allocateExtra m (ds.length + 1) (applyMinimumPayments ds t b).2.2.2
          (applyMinimumPayments ds t b).1 (applyMinimumPayments ds t b).2.1
          (applyMinimumPayments ds t b).2.2.1).2.2.1) := by
  cases m with
  | minimum => exact absurd rfl hm
  | avalanche => rfl
  | snowball => rfl

lemma monthStep_rel (m : Method) (b : ℚ) (ds : List Debt) (t : Totals) :
    List.Forall₂ StepRel ds (monthStep m b ds t).1 ∧
      List.Forall₂ (fun x r => r.balance = max 0 x.balance)
        (monthStep m b ds t).1 (monthStep m b ds t).2.1 := by
  cases m with
  | minimum => exact processMinimumMonth_rel ds t
  | avalanche =>
    rw [monthStep_strategy .avalanche (by decide) b ds t]
    dsimp only
    have h1 := applyMinimumPayments_rel ds t b
    have h2 := allocateExtra_rel .avalanche (ds.length + 1)
      (applyMinimumPayments ds t b).2.2.2 (applyMinimumPayments ds t b).1
      (applyMinimumPayments ds t b).2.1 (applyMinimumPayments ds t b).2.2.1
    exact ⟨@forall₂_comp _ _ _ StepRel StepRel StepRel (fun _ _ _ ha hb => StepRel_trans ha hb) _ _ _ h1.1 h2.1, h2.2 h1.2⟩
  | snowball =>
    rw [monthStep_strategy .snowball (by decide) b ds t]
    dsimp only
    have h1 := applyMinimumPayments_rel ds t b
    have h2 := allocateExtra_rel .snowball (ds.length + 1)
      (applyMinimumPayments ds t b).2.2.2 (applyMinimumPayments ds t b).1
      (applyMinimumPayments ds t b).2.1 (applyMinimumPayments ds t b).2.2.1
    exact ⟨@forall₂_comp _ _ _ StepRel StepRel StepRel (fun _ _ _ ha hb => StepRel_trans ha hb) _ _ _ h1.1 h2.1, h2.2 h1.2⟩

lemma getLast?_append_singleton {α : Type} : ∀ (l : List α) (a : α),
    (l ++ [a]).getLast? = some a := by
  intro l a
  induction l with
  | nil => rfl
  | cons x xs ih =>
    cases xs with
    | nil => rfl
    | cons y ys =>
      show (x :: ((y :: ys) ++ [a])).getLast? = some a
      rw [List.cons_append, List.getLast?_cons_cons, ← List.cons_append]
      exact ih

/-- Relate the records of one month to the next month's records: balances can
only shrink, and a zero balance is absorbing. -/
lemma recsRel_of {ds ds' : List Debt} {recs1 recs2 : List PayRecord}
    (hnn : ∀ x ∈ ds, 0 ≤ x.balance)
    (h1 : List.Forall₂ (fun x r => r.balance = max 0 x.balance) ds recs1)
    (hstep : List.Forall₂ StepRel ds ds')
    (h2 : List.Forall₂ (fun x r => r.balance = max 0 x.balance) ds' recs2) :
    ∀ (j : Nat) (p1 p2 : PayRecord), recs1.get? j = some p1 → recs2.get? j = some p2 →
      p2.balance ≤ p1.balance ∧ (p1.balance = 0 → p2.balance = 0) := by
  intro j p1 p2 hp1 hp2
  rcases forall₂_get?_right h1 hp1 with ⟨d, hd, hb1⟩
  rcases forall₂_get?_left hstep hd with ⟨d', hd', hrel⟩
  rcases forall₂_get?_right h2 hp2 with ⟨d'', hd'', hb2⟩
  have hdd : d' = d'' := by rw [hd'] at hd''; exact Option.some.inj hd''
  subst hdd
  have hdnn : 0 ≤ d.balance := hnn d (List.get?_mem hd)
  have hmax1 : p1.balance = d.balance := by rw [hb1, max_eq_right hdnn]
  have hrelbal := hrel.2.2.2.2.1 hdnn
  have hmax2 : p2.balance = d'.balance := by rw [hb2, max_eq_right hrelbal.1]
  constructor
  · rw [hmax1, hmax2]; exact hrelbal.2
  · intro h0
    have hdb0 : d.balance = 0 := by rw [← hmax1]; exact h0
    have hfix : d' = d := hrel.2.2.2.2.2 (le_of_eq hdb0)
    rw [hmax2, hfix, hdb0]

/-- Non-negativity of balances is preserved by a month step. -/
lemma nonneg_of_stepRel {ds ds' : List Debt}
    (hnn : ∀ x ∈ ds, 0 ≤ x.balance) (h : List.Forall₂ StepRel ds ds') :
    ∀ x ∈ ds', 0 ≤ x.balance := by
  intro x hx
  rcases forall₂_mem_right h hx with ⟨d, hd, hrel⟩
  exact (hrel.2.2.2.2.1 (hnn d hd)).1

/-- Main run invariant for monotone balances: the produced month records form a
chain under "balances shrink and zero is absorbing", balances stay
non-negative, the last record mirrors the final balances, and a run that stops
before exhausting its fuel has no remaining positive balance. -/
lemma simulationLoop_mono (m : Method) (b : ℚ) :
    ∀ (fuel mc : Nat) (ds : List Debt) (t : Totals) (acc : List MonthRecord),
      (∀ x ∈ ds, 0 ≤ x.balance) →
      (∀ last ∈ acc.getLast?,
        List.Forall₂ (fun x r => r.balance = max 0 x.balance) ds last.debtPayments) →
      List.Chain' (fun mr1 mr2 => ∀ (j : Nat) (p1 p2 : PayRecord),
        mr1.debtPayments.get? j = some p1 → mr2.debtPayments.get? j = some p2 →
        p2.balance ≤ p1.balance ∧ (p1.balance = 0 → p2.balance = 0)) acc →
      List.Chain' (fun mr1 mr2 => ∀ (j : Nat) (p1 p2 : PayRecord),
          mr1.debtPayments.get? j = some p1 → mr2.debtPayments.get? j = some p2 →
          p2.balance ≤ p1.balance ∧ (p1.balance = 0 → p2.balance = 0))
        (simulationLoop m b fuel mc ds t acc).2.2.1 ∧
      (∀ x ∈ (simulationLoop m b fuel mc ds t acc).1, 0 ≤ x.balance) ∧
      (∀ last ∈ (simulationLoop m b fuel mc ds t acc).2.2.1.getLast?,
        List.Forall₂ (fun x r => r.balance = max 0 x.balance)
          (simulationLoop m b fuel mc ds t acc).1 last.debtPayments) ∧
      ((simulationLoop m b fuel mc ds t acc).2.2.2 < mc + fuel →
        ∀ x ∈ (simulationLoop m b fuel mc ds t acc).1, x.balance ≤ 0) := by
  intro fuel
  induction fuel with
  | zero =>
    intro mc ds t acc hnn hlast hchain
    rw [simulationLoop]
    dsimp only
    exact ⟨hchain, hnn, hlast, fun hlt => absurd hlt (by omega)⟩
  | succ n ih =>
    intro mc ds t acc hnn hlast hchain
    by_cases hguard : (ds.any fun d => decide (0 < d.balance)) = true
    · rw [simulationLoop_step m b n mc ds t acc hguard]
      have hrel := monthStep_rel m b ds t
      have hnn' : ∀ x ∈ (monthStep m b ds t).1, 0 ≤ x.balance := nonneg_of_stepRel hnn hrel.1
      have hlast' : ∀ last ∈ (acc ++ [(⟨mc + 1, (monthStep m b ds t).2.1,
            (monthStep m b ds t).2.2.totalPaid,
            (monthStep m b ds t).1.foldl (fun s d => s + d.balance) 0⟩ : MonthRecord)]).getLast?,
          List.Forall₂ (fun x r => r.balance = max 0 x.balance)
            (monthStep m b ds t).1 last.debtPayments := by
        intro last hl
        rw [getLast?_append_singleton] at hl
        cases hl
        exact hrel.2
      have hchain' : List.Chain' (fun mr1 mr2 => ∀ (j : Nat) (p1 p2 : PayRecord),
          mr1.debtPayments.get? j = some p1 → mr2.debtPayments.get? j = some p2 →
          p2.balance ≤ p1.balance ∧ (p1.balance = 0 → p2.balance = 0))
          (acc ++ [(⟨mc + 1, (monthStep m b ds t).2.1,
            (monthStep m b ds t).2.2.totalPaid,
            (monthStep m b ds t).1.foldl (fun s d => s + d.balance) 0⟩ : MonthRecord)]) := by
        rw [List.chain'_append]
        refine ⟨hchain, List.chain'_singleton _, ?_⟩
        intro x hx y hy
        have hy' : (⟨mc + 1, (monthStep m b ds t).2.1,
            (monthStep m b ds t).2.2.totalPaid,
            (monthStep m b ds t).1.foldl (fun s d => s + d.balance) 0⟩ : MonthRecord) = y := by
          simpa using hy
        subst hy'
        exact recsRel_of hnn (hlast x hx) hrel.1 hrel.2
      rcases ih (mc + 1) (monthStep m b ds t).1 (monthStep m b ds t).2.2
          (acc ++ [(⟨mc + 1, (monthStep m b ds t).2.1,
            (monthStep m b ds t).2.2.totalPaid,
            (monthStep m b ds t).1.foldl (fun s d => s + d.balance) 0⟩ : MonthRecord)])
          hnn' hlast' hchain' with ⟨c1, c2, c3, c4⟩
      exact ⟨c1, c2, c3, fun hlt => c4 (by omega)⟩
    · rw [simulationLoop_stop m b _ mc ds t acc hguard]
      refine ⟨hchain, hnn, hlast, fun _ => ?_⟩
      intro x hx
      by_contra hpos
      have : (ds.any fun d => decide (0 < d.balance)) = true :=
        List.any_eq_true.mpr ⟨x, hx, by simpa using not_le.mp hpos⟩
      exact hguard this

lemma chain'_get? {α : Type} {R : α → α → Prop} :
    ∀ {l : List α}, List.Chain' R l →
      ∀ (i : Nat) (a b : α), l.get? i = some a → l.get? (i + 1) = some b → R a b := by
  intro l
  induction l with
  | nil => intro _ i a b ha _; simp at ha
  | cons x xs ih =>
    intro hch i a b ha hb
    cases xs with
    | nil =>
      rw [List.get?_cons_succ] at hb
      simp at hb
    | cons y ys =>
      have hch' := List.chain'_cons.mp hch
      cases i with
      | zero =>
        rw [List.get?_cons_zero] at ha
        cases ha
        rw [List.get?_cons_succ, List.get?_cons_zero] at hb
        cases hb
        exact hch'.1
      | succ n =>
        rw [List.get?_cons_succ] at ha hb
        exact ih hch'.2 n a b ha hb

/-- C6 (amended): in every run, each debt's recorded balance never increases
from one month to the next and zero is absorbing; whenever the run stops short
of the 1200-month cap, the last month records every balance as exactly 0.
(The original "reaches exactly 0" clause fails on aborted runs — see the
counterexample.) -/
theorem claim_C6_monotone_amended (debts : List Debt) (e : ℚ) (m : Method) (r : PlanResult)
    (hbal : ∀ d ∈ debts, 0 ≤ d.balance)
    (hr : calculateRepaymentPlan debts e m = some r) :
    (∀ (i : Nat) (mr1 mr2 : MonthRecord), r.monthlyPayments.get? i = some mr1 →
        r.monthlyPayments.get? (i + 1) = some mr2 →
        ∀ (j : Nat) (p1 p2 : PayRecord), mr1.debtPayments.get? j = some p1 →
          mr2.debtPayments.get? j = some p2 →
          p2.balance ≤ p1.balance ∧ (p1.balance = 0 → p2.balance = 0)) ∧
    (r.months < 1200 →
      ∀ mr ∈ r.monthlyPayments.getLast?, ∀ p ∈ mr.debtPayments, p.balance = 0) := by
  cases debts with
  | nil => simp [calculateRepaymentPlan] at hr
  | cons d0 ds0 =>
    rw [calculateRepaymentPlan_cons] at hr
    have hre := Option.some.inj hr
    have hmp : r.monthlyPayments =
        (simulationLoop m (planBudget (d0 :: ds0) e m) 1200 0
          (workingCopy (d0 :: ds0)) ⟨0, 0⟩ []).2.2.1 := by rw [← hre]
    have hmo : r.months =
        (simulationLoop m (planBudget (d0 :: ds0) e m) 1200 0
          (workingCopy (d0 :: ds0)) ⟨0, 0⟩ []).2.2.2 := by rw [← hre]
    have hnn : ∀ x ∈ workingCopy (d0 :: ds0), 0 ≤ x.balance := by
      intro x hx
      rcases List.mem_map.mp hx with ⟨d, hd, hdx⟩
      rw [← hdx]
      exact hbal d hd
    have hmono := simulationLoop_mono m (planBudget (d0 :: ds0) e m) 1200 0
      (workingCopy (d0 :: ds0)) ⟨0, 0⟩ [] hnn (by intro last hl; simp at hl) List.chain'_nil
    constructor
    · intro i mr1 mr2 h1 h2 j p1 p2 hp1 hp2
      rw [hmp] at h1 h2
      exact chain'_get? hmono.1 i mr1 mr2 h1 h2 j p1 p2 hp1 hp2
    · intro hm mr hmr p hp
      rw [hmp] at hmr
      rw [hmo] at hm
      have hzero := hmono.2.2.2 (by omega)
      have hlast := hmono.2.2.1 mr hmr
      rcases forall₂_mem_right hlast hp with ⟨x, hx, hxb⟩
      have h0 : x.balance ≤ 0 := hzero x hx
      have h0' : 0 ≤ x.balance := hmono.2.1 x hx
      have hx0 : x.balance = 0 := le_antisymm h0 h0'
      rw [hxb, hx0, max_self]

unseal Rat.mul Rat.inv Rat.add Rat.sub in
/-- Witness for C6: a concrete two-month avalanche run (one debt, balance 100,
0% APR, minimum 30, extra 20); between months 1 and 2 the recorded balance
drops from 50 to 0, as the theorem requires. -/
theorem claim_C6_witness :
    (⟨0, 50, 30, 20, 0, 0⟩ : PayRecord).balance ≤ (⟨0, 50, 30, 20, 50, 0⟩ : PayRecord).balance ∧
      ((⟨0, 50, 30, 20, 50, 0⟩ : PayRecord).balance = 0 →
        (⟨0, 50, 30, 20, 0, 0⟩ : PayRecord).balance = 0) :=
  (claim_C6_monotone_amended [⟨0, 100, 0, 30, false⟩] 20 .avalanche
      ⟨100, 0, 2, [⟨1, [⟨0, 50, 30, 20, 50, 0⟩], 50, 50⟩, ⟨2, [⟨0, 50, 30, 20, 0, 0⟩], 100, 0⟩]⟩
      (by decide) (by decide)).1
    0 ⟨1, [⟨0, 50, 30, 20, 50, 0⟩], 50, 50⟩ ⟨2, [⟨0, 50, 30, 20, 0, 0⟩], 100, 0⟩
    (by decide) (by decide) 0 ⟨0, 50, 30, 20, 50, 0⟩ ⟨0, 50, 30, 20, 0, 0⟩
    (by decide) (by decide)

unseal Rat.mul Rat.inv Rat.add Rat.sub in
/-- C6, counterexample: "reaches exactly 0" fails on aborted runs.  A
minimum-only run on the installment debt (balance 500, APR 240%, minimum 1,
whose monthly interest 100 exceeds the minimum) aborts at 1200 months with the
recorded balance equal to 500 in every single month — it never reaches 0. -/
theorem claim_C6_counterexample :
    monthsOf (calculateMinimum [⟨0, 500, 240, 1, false⟩]) = some 1200 ∧
      ((monthlyRecordsOf (calculateMinimum [⟨0, 500, 240, 1, false⟩])).all
        (fun mr => decide ((mr.debtPayments.get? 0).map PayRecord.balance = some 500))) = true ∧
      (monthlyRecordsOf (calculateMinimum [⟨0, 500, 240, 1, false⟩])).head? =
        some ⟨1, [⟨0, 1, 1, 0, 500, 100⟩], 1, 500⟩ := by
  have hwj : (workingCopy [⟨0, 500, 240, 1, false⟩]).get? 0 =
      some { (⟨0, 500, 240, 1, false⟩ : Debt) with apr := 240 / 100 } := rfl
  have hstuck := simulationLoop_stuck (planBudget [⟨0, 500, 240, 1, false⟩] 0 .minimum) 1200 0
    (workingCopy [⟨0, 500, 240, 1, false⟩]) ⟨0, 0⟩ [] 0
    { (⟨0, 500, 240, 1, false⟩ : Debt) with apr := 240 / 100 } hwj rfl (by decide) (by decide)
  refine ⟨?_, ?_, ?_⟩
  · rw [calculateMinimum, monthsOf_plan, hstuck.1]
  · rw [calculateMinimum, monthlyRecordsOf_plan]
    refine List.all_eq_true.mpr ?_
    intro mr hmr
    rcases hstuck.2 mr hmr with h | ⟨p, hp, hb⟩
    · simp at h
    · refine decide_eq_true ?_
      rw [hp]
      rw [Option.map_some']
      rw [hb]
  · have hguard : (((workingCopy [⟨0, 500, 240, 1, false⟩]).any
        fun d => decide (0 < d.balance)) = true) := by decide
    rw [calculateMinimum, monthlyRecordsOf_plan]
    have h1200 : (1200 : Nat) = 1199 + 1 := rfl
    rw [h1200, simulationLoop_step .minimum (planBudget [⟨0, 500, 240, 1, false⟩] 0 .minimum) 1199 0
      (workingCopy [⟨0, 500, 240, 1, false⟩]) ⟨0, 0⟩ [] hguard]
    rw [simulationLoop_out_acc, List.nil_append, List.singleton_append, List.head?_cons]
    have hmr : (monthStep .minimum (planBudget [⟨0, 500, 240, 1, false⟩] 0 .minimum)
        (workingCopy [⟨0, 500, 240, 1, false⟩]) ⟨0, 0⟩).2.1 =
        [⟨0, 1, 1, 0, 500, 100⟩] := by decide
    have hpaid : (monthStep .minimum (planBudget [⟨0, 500, 240, 1, false⟩] 0 .minimum)
        (workingCopy [⟨0, 500, 240, 1, false⟩]) ⟨0, 0⟩).2.2.totalPaid = 1 := by decide
    have hrem : (monthStep .minimum (planBudget [⟨0, 500, 240, 1, false⟩] 0 .minimum)
        (workingCopy [⟨0, 500, 240, 1, false⟩]) ⟨0, 0⟩).1.foldl
        (fun s d => s + d.balance) 0 = 500 := by decide
    rw [hmr, hpaid, hrem]

unseal Rat.mul Rat.inv Rat.add Rat.sub in
/-- Witness for C5: a small completing run is within the cap, and a concrete
stuck minimum-only run returns exactly 1200 months. -/
theorem claim_C5_witness :
    (([⟨0, 50, 0, 10, false⟩] : List Debt) ≠ []) ∧
      withinCap (calculateMinimum [⟨0, 50, 0, 10, false⟩]) ∧
      monthsOf (calculateMinimum [⟨0, 100, 1200, 10, false⟩]) = some 1200 :=
  ⟨by decide,
   (claim_C5_termination_amended.1 [⟨0, 50, 0, 10, false⟩] 7 (by decide)).1,
   claim_C5_termination_amended.2 [⟨0, 100, 1200, 10, false⟩] 0 ⟨0, 100, 1200, 10, false⟩ rfl rfl
     (by decide) (by decide)⟩

/-! ### Budget conservation machinery -/

lemma calculateCreditCardMinimum_nonneg (b apr : ℚ) (hapr : 0 ≤ apr) :
    0 ≤ calculateCreditCardMinimum b apr := by
  rw [calculateCreditCardMinimum]
  by_cases h0 : b ≤ 0
  · rw [if_pos h0]
  · rw [if_neg h0]
    have hb : 0 < b := not_le.mp h0
    dsimp only
    by_cases h25 : b < 25
    · rw [if_pos h25]; exact le_of_lt hb
    · rw [if_neg h25]
      by_cases hcm : (1 / 100) * b + b * (apr / 12) < 25
      · rw [if_pos hcm]; norm_num
      · rw [if_neg hcm]
        have h1 : 0 ≤ (1 / 100) * b := by positivity
        have h2 : 0 ≤ b * (apr / 12) := mul_nonneg (le_of_lt hb) (by positivity)
        linarith

lemma calculateCreditCardMinimum_mono (b1 b2 apr : ℚ) (hapr : 0 ≤ apr) (h12 : b1 ≤ b2) :
    calculateCreditCardMinimum b1 apr ≤ calculateCreditCardMinimum b2 apr := by
  by_cases h1 : b1 ≤ 0
  · rw [calculateCreditCardMinimum, if_pos h1]
    exact calculateCreditCardMinimum_nonneg b2 apr hapr
  · have hb1 : 0 < b1 := not_le.mp h1
    have hb2 : 0 < b2 := lt_of_lt_of_le hb1 h12
    rw [calculateCreditCardMinimum, calculateCreditCardMinimum, if_neg h1,
      if_neg (not_le.mpr hb2)]
    dsimp only
    have hcm : (1 / 100) * b1 + b1 * (apr / 12) ≤ (1 / 100) * b2 + b2 * (apr / 12) := by
      have hs : (0:ℚ) ≤ 1 / 100 + apr / 12 := by positivity
      nlinarith
    by_cases hb125 : b1 < 25
    · rw [if_pos hb125]
      by_cases hb225 : b2 < 25
      · rw [if_pos hb225]; exact h12
      · rw [if_neg hb225]
        by_cases hc2 : (1 / 100) * b2 + b2 * (apr / 12) < 25
        · rw [if_pos hc2]; linarith
        · rw [if_neg hc2]; linarith [not_lt.mp hc2]
    · rw [if_neg hb125]
      have hb225 : ¬b2 < 25 := by linarith [not_lt.mp hb125]
      rw [if_neg hb225]
      by_cases hc1 : (1 / 100) * b1 + b1 * (apr / 12) < 25
      · rw [if_pos hc1]
        by_cases hc2 : (1 / 100) * b2 + b2 * (apr / 12) < 25
        · rw [if_pos hc2]
        · rw [if_neg hc2]; linarith [not_lt.mp hc2]
      · rw [if_neg hc1]
        have hc2 : ¬((1 / 100) * b2 + b2 * (apr / 12) < 25) :=
          not_lt.mpr (le_trans (not_lt.mp hc1) hcm)
        rw [if_neg hc2]
        exact hcm

lemma debtMinimum_nonneg (d : Debt) (hapr : 0 ≤ d.apr) (hmin : 0 ≤ d.minPayment) :
    0 ≤ debtMinimum d := by
  rw [debtMinimum]
  split
  · exact calculateCreditCardMinimum_nonneg d.balance d.apr hapr
  · exact hmin

lemma debtMinimum_le_of_stepRel {d0 d : Debt} (h : StepRel d0 d) (hv : ValidDebt d0) :
    debtMinimum d ≤ debtMinimum d0 := by
  rw [debtMinimum, debtMinimum, h.2.2.2.1, h.2.1, h.2.2.1]
  split
  · exact calculateCreditCardMinimum_mono d.balance d0.balance d0.apr hv.2.1
      (h.2.2.2.2.1 hv.1).2
  · exact le_refl _

lemma debtMinimum_nonneg_of_stepRel {d0 d : Debt} (h : StepRel d0 d) (hv : ValidDebt d0) :
    0 ≤ debtMinimum d := by
  refine debtMinimum_nonneg d ?_ ?_
  · rw [h.2.1]; exact hv.2.1
  · rw [h.2.2.1]; exact hv.2.2

lemma sumPayments_cons (r : PayRecord) (recs : List PayRecord) :
    sumPayments (r :: recs) = r.payment + sumPayments recs := by
  rw [sumPayments, sumPayments, List.map_cons, List.sum_cons]

lemma foldl_add_sum (f : Debt → ℚ) : ∀ (l : List Debt) (c : ℚ),
    l.foldl (fun s d => s + f d) c = c + (l.map f).sum := by
  intro l
  induction l with
  | nil => intro c; simp
  | cons a rest ih =>
    intro c
    rw [List.foldl_cons, ih (c + f a), List.map_cons, List.sum_cons]
    ring

lemma initialBudget_eq (debts : List Debt) (e : ℚ) :
    initialBudget debts e = minSum (workingCopy debts) + e := by
  rw [initialBudget, minSum, foldl_add_sum]
  ring

/-- Accounting for the minimum-payment phase: the final available budget is the
input budget minus the payments made, every record's payment is characterized,
and the lengths line up. -/
lemma applyMinimumPayments_spec : ∀ (ds : List Debt) (t : Totals) (avail : ℚ),
    (applyMinimumPayments ds t avail).2.2.2 =
      avail - sumPayments (applyMinimumPayments ds t avail).2.1 ∧
      List.Forall₂ (fun d r => (d.balance ≤ 0 → r.payment = 0) ∧
        (0 < d.balance → r.payment = min (debtMinimum d) d.balance))
        ds (applyMinimumPayments ds t avail).2.1 ∧
      (applyMinimumPayments ds t avail).1.length = ds.length ∧
      (applyMinimumPayments ds t avail).2.1.length = ds.length := by
  intro ds
  induction ds with
  | nil =>
    intro t avail
    refine ⟨?_, .nil, rfl, rfl⟩
    rw [applyMinimumPayments]
    dsimp only
    rw [sumPayments]
    simp
  | cons a rest ih =>
    intro t avail
    by_cases hb : a.balance ≤ 0
    · rw [applyMinimumPayments, if_pos hb]
      dsimp only
      rcases ih t avail with ⟨h1, h2, h3, h4⟩
      refine ⟨?_, .cons ⟨fun _ => rfl, fun hpos => absurd hpos (not_lt.mpr hb)⟩ h2, ?_, ?_⟩
      · rw [sumPayments_cons, h1]
        dsimp only [zeroRecord]
        ring
      · simp only [List.length_cons, h3]
      · simp only [List.length_cons, h4]
    · rw [applyMinimumPayments, if_neg hb]
      dsimp only
      have hpos : 0 < a.balance := not_le.mp hb
      have hpay : (processMonthlyDebtPayment a (min (debtMinimum a) a.balance) t).1.payment =
          min (debtMinimum a) a.balance := by
        rw [processMonthlyDebtPayment, if_neg hb]
        dsimp only
        rw [min_eq_left (min_le_right _ _)]
      rcases ih (processMonthlyDebtPayment a (min (debtMinimum a) a.balance) t).2.2
        (avail - min (debtMinimum a) a.balance) with ⟨h1, h2, h3, h4⟩
      refine ⟨?_, .cons ⟨fun hle => absurd hle hb, fun _ => hpay⟩ h2, ?_, ?_⟩
      · rw [sumPayments_cons, h1, hpay]
        ring
      · simp only [List.length_cons, h3]
      · simp only [List.length_cons, h4]

/-- Every payment of the minimum phase is between 0 and the original debt's
current-month minimum, so their sum is at most the original minimum sum. -/
lemma applyMinimumPayments_le_minSum {w0 ds : List Debt} (t : Totals) (avail : ℚ)
    (hw0 : ∀ d ∈ w0, ValidDebt d) (hrel : List.Forall₂ StepRel w0 ds) :
    sumPayments (applyMinimumPayments ds t avail).2.1 ≤ minSum w0 := by
  have hchar := (applyMinimumPayments_spec ds t avail).2.1
  have hT : ∀ (d0 d : Debt) (r : PayRecord), StepRel d0 d →
      ((d.balance ≤ 0 → r.payment = 0) ∧
        (0 < d.balance → r.payment = min (debtMinimum d) d.balance)) →
      (ValidDebt d0 → r.payment ≤ debtMinimum d0) := by
    intro d0 d r hsr hpr hv
    by_cases hb : d.balance ≤ 0
    · rw [hpr.1 hb]
      exact debtMinimum_nonneg d0 hv.2.1 hv.2.2
    · rw [hpr.2 (not_le.mp hb)]
      exact le_trans (min_le_left _ _) (debtMinimum_le_of_stepRel hsr hv)
  have hcomb := @forall₂_comp Debt Debt PayRecord StepRel
    (fun (d : Debt) (r : PayRecord) => (d.balance ≤ 0 → r.payment = 0) ∧
      (0 < d.balance → r.payment = min (debtMinimum d) d.balance))
    (fun (d0 : Debt) (r : PayRecord) => ValidDebt d0 → r.payment ≤ debtMinimum d0)
    hT _ _ _ hrel hchar
  clear hchar hrel
  rw [minSum, sumPayments]
  generalize (applyMinimumPayments ds t avail).2.1 = recs at hcomb ⊢
  revert hw0
  induction hcomb with
  | nil => intro _; simp
  | cons hx hrest ih =>
    rename_i d0 r w0' recs'
    intro hw0
    rw [List.map_cons, List.map_cons, List.sum_cons, List.sum_cons]
    have hv := hw0 d0 (List.mem_cons_self _ _)
    have ihh := ih fun d hd => hw0 d (List.mem_cons_of_mem _ hd)
    have := hx hv
    linarith

lemma modifyAt_length {α : Type} : ∀ (l : List α) (i : Nat) (f : α → α),
    (modifyAt l i f).length = l.length := by
  intro l
  induction l with
  | nil => intro i f; rw [modifyAt]
  | cons a rest ih =>
    intro i f
    cases i with
    | zero => rw [modifyAt, List.length_cons, List.length_cons]
    | succ n => rw [modifyAt, List.length_cons, List.length_cons, ih]

lemma sumPayments_modifyAt : ∀ (recs : List PayRecord) (i : Nat) (r : PayRecord)
    (g : PayRecord → PayRecord), recs.get? i = some r →
    sumPayments (modifyAt recs i g) = sumPayments recs - r.payment + (g r).payment := by
  intro recs
  induction recs with
  | nil => intro i r g h; exact absurd h (by simp)
  | cons a rest ih =>
    intro i r g h
    cases i with
    | zero =>
      rw [List.get?_cons_zero] at h
      cases h
      rw [modifyAt, sumPayments_cons, sumPayments_cons]
      ring
    | succ n =>
      rw [List.get?_cons_succ] at h
      rw [modifyAt, sumPayments_cons, sumPayments_cons, ih n r g h]
      ring

lemma posCount_cons (a : Debt) (l : List Debt) :
    posCount (a :: l) = (if 0 < a.balance then 1 else 0) + posCount l := by
  rw [posCount, posCount, List.filter_cons]
  by_cases h : 0 < a.balance
  · rw [if_pos (decide_eq_true h), if_pos h, List.length_cons]
    omega
  · rw [if_neg (by simpa using h), if_neg h]
    omega

lemma posCount_modifyAt_zero : ∀ (ds : List Debt) (i : Nat) (pd : Debt)
    (f : Debt → Debt), ds.get? i = some pd → 0 < pd.balance → (f pd).balance ≤ 0 →
    posCount (modifyAt ds i f) + 1 = posCount ds := by
  intro ds
  induction ds with
  | nil => intro i pd f h; exact absurd h (by simp)
  | cons a rest ih =>
    intro i pd f h hpos hz
    cases i with
    | zero =>
      rw [List.get?_cons_zero] at h
      cases h
      rw [modifyAt, posCount_cons, posCount_cons, if_pos hpos, if_neg (not_lt.mpr hz)]
      omega
    | succ n =>
      rw [List.get?_cons_succ] at h
      rw [modifyAt, posCount_cons, posCount_cons]
      have := ih n pd f h hpos hz
      omega

lemma posCount_le_length (ds : List Debt) : posCount ds ≤ ds.length := by
  rw [posCount]
  exact List.length_filter_le _ _

lemma withIndexFrom_filter_nil : ∀ (l : List Debt) (k : Nat),
    (withIndexFrom k l).filter (fun p => decide (0 < p.2.balance)) = [] →
    ∀ x ∈ l, x.balance ≤ 0 := by
  intro l
  induction l with
  | nil => intro k h x hx; exact absurd hx (List.not_mem_nil x)
  | cons a rest ih =>
    intro k h x hx
    rw [withIndexFrom, List.filter_cons] at h
    by_cases ha : 0 < a.balance
    · rw [if_pos (by simpa using ha)] at h
      exact absurd h (List.cons_ne_nil _ _)
    · rw [if_neg (by simpa using ha)] at h
      rcases List.mem_cons.mp hx with hx | hx
      · subst hx; exact not_lt.mp ha
      · exact ih (k + 1) h x hx

lemma debtsWithBalance_nil {ds : List Debt} (h : debtsWithBalance ds = []) :
    ∀ x ∈ ds, x.balance ≤ 0 :=
  withIndexFrom_filter_nil ds 0 h

lemma get?_isSome_of_lt {α : Type} {l : List α} {i : Nat} (h : i < l.length) :
    ∃ a, l.get? i = some a := by
  cases hg : l.get? i with
  | none => exact absurd (List.get?_eq_none.mp hg) (not_le.mpr h)
  | some a => exact ⟨a, rfl⟩

/-- Accounting for the surplus-allocation loop: payment sum plus the leftover
equals the input record sum plus the input surplus; the leftover stays within
`[0, avail]`; lengths are preserved. -/
lemma allocateExtra_spec (m : Method) : ∀ (fuel : Nat) (avail : ℚ) (ds : List Debt)
    (recs : List PayRecord) (t : Totals), recs.length = ds.length → 0 ≤ avail →
    sumPayments (allocateExtra m fuel avail ds recs t).2.1 +
        (allocateExtra m fuel avail ds recs t).2.2.2.1 =
      sumPayments recs + avail ∧
    0 ≤ (allocateExtra m fuel avail ds recs t).2.2.2.1 ∧
    (allocateExtra m fuel avail ds recs t).2.2.2.1 ≤ avail ∧
    (allocateExtra m fuel avail ds recs t).2.1.length = recs.length ∧
    (allocateExtra m fuel avail ds recs t).1.length = ds.length := by
  intro fuel
  induction fuel with
  | zero =>
    intro avail ds recs t hlen hav
    rw [allocateExtra]
    exact ⟨by ring, hav, le_refl _, rfl, rfl⟩
  | succ n ih =>
    intro avail ds recs t hlen hav
    rw [allocateExtra]
    by_cases hgt : 1 / 100 < avail
    · rw [if_pos hgt]
      cases hsel : selectPriority m (debtsWithBalance ds) with
      | none =>
        dsimp only
        exact ⟨by ring, hav, le_refl _, rfl, rfl⟩
      | some p =>
        obtain ⟨i, pd⟩ := p
        dsimp only
        have hget := (mem_debtsWithBalance (selectPriority_mem hsel)).1
        have hpos := (mem_debtsWithBalance (selectPriority_mem hsel)).2
        have hilt : i < ds.length := (List.get?_eq_some.mp hget).1
        obtain ⟨r, hr⟩ := get?_isSome_of_lt (hlen ▸ hilt)
        have hext1 : min avail pd.balance ≤ avail := min_le_left _ _
        have hext0 : 0 ≤ min avail pd.balance :=
          le_min (le_trans (by norm_num) (le_of_lt hgt)) (le_of_lt hpos)
        have hlen' : (modifyAt recs i fun r =>
            { r with payment := r.payment + min avail pd.balance,
                     extraPayment := r.extraPayment + min avail pd.balance,
                     balance := if pd.balance - min avail pd.balance < 1 / 100 then 0
                       else pd.balance - min avail pd.balance }).length =
            (modifyAt ds i fun d =>
              { d with balance := if pd.balance - min avail pd.balance < 1 / 100 then 0
                  else pd.balance - min avail pd.balance }).length := by
          rw [modifyAt_length, modifyAt_length, hlen]
        have hsum := sumPayments_modifyAt recs i r (fun r =>
          { r with payment := r.payment + min avail pd.balance,
                   extraPayment := r.extraPayment + min avail pd.balance,
                   balance := if pd.balance - min avail pd.balance < 1 / 100 then 0
                     else pd.balance - min avail pd.balance }) hr
        rcases ih (avail - min avail pd.balance)
            (modifyAt ds i fun d =>
              { d with balance := if pd.balance - min avail pd.balance < 1 / 100 then 0
                  else pd.balance - min avail pd.balance })
            (modifyAt recs i fun r =>
              { r with payment := r.payment + min avail pd.balance,
                       extraPayment := r.extraPayment + min avail pd.balance,
                       balance := if pd.balance - min avail pd.balance < 1 / 100 then 0
                         else pd.balance - min avail pd.balance })
            { t with totalPaid := t.totalPaid + min avail pd.balance }
            hlen' (by linarith) with ⟨ih1, ih2, ih3, ih4, ih5⟩
        refine ⟨?_, ih2, by linarith, ?_, ?_⟩
        · rw [ih1, hsum]
          dsimp only
          ring
        · rw [ih4, modifyAt_length]
        · rw [ih5, modifyAt_length]
    · rw [if_neg hgt]
      exact ⟨by ring, hav, le_refl _, rfl, rfl⟩

lemma allocateExtra_avail_bounds (m : Method) : ∀ (fuel : Nat) (avail : ℚ)
    (ds : List Debt) (recs : List PayRecord) (t : Totals), 0 ≤ avail →
    0 ≤ (allocateExtra m fuel avail ds recs t).2.2.2.1 ∧
      (allocateExtra m fuel avail ds recs t).2.2.2.1 ≤ avail := by
  intro fuel
  induction fuel with
  | zero => intro avail ds recs t hav; rw [allocateExtra]; exact ⟨hav, le_refl _⟩
  | succ n ih =>
    intro avail ds recs t hav
    rw [allocateExtra]
    by_cases hgt : 1 / 100 < avail
    · rw [if_pos hgt]
      cases hsel : selectPriority m (debtsWithBalance ds) with
      | none => exact ⟨hav, le_refl _⟩
      | some p =>
        obtain ⟨i, pd⟩ := p
        dsimp only
        have hpos := (mem_debtsWithBalance (selectPriority_mem hsel)).2
        have hext1 : min avail pd.balance ≤ avail := min_le_left _ _
        have hext0 : 0 ≤ min avail pd.balance := le_min hav (le_of_lt hpos)
        rcases ih (avail - min avail pd.balance) _ _ _ (by linarith) with ⟨h1, h2⟩
        exact ⟨h1, by linarith⟩
    · rw [if_neg hgt]
      exact ⟨hav, le_refl _⟩

/-- If the allocator has more fuel than there are positive-balance debts, it can
only stop because the surplus is exhausted (≤ one cent) or no balance remains. -/
lemma allocateExtra_exit (m : Method) (hm : m ≠ .minimum) : ∀ (fuel : Nat) (avail : ℚ)
    (ds : List Debt) (recs : List PayRecord) (t : Totals), posCount ds < fuel → 0 ≤ avail →
    (allocateExtra m fuel avail ds recs t).2.2.2.1 ≤ 1 / 100 ∨
      ∀ x ∈ (allocateExtra m fuel avail ds recs t).1, x.balance ≤ 0 := by
  intro fuel
  induction fuel with
  | zero => intro avail ds recs t hf; exact absurd hf (by omega)
  | succ n ih =>
    intro avail ds recs t hf hav
    rw [allocateExtra]
    by_cases hgt : 1 / 100 < avail
    · rw [if_pos hgt]
      cases hsel : selectPriority m (debtsWithBalance ds) with
      | none =>
        dsimp only
        refine Or.inr ?_
        have hnil : debtsWithBalance ds = [] := by
          cases hdw : debtsWithBalance ds with
          | nil => rfl
          | cons p rest =>
            rw [hdw] at hsel
            cases m with
            | minimum => exact absurd rfl hm
            | avalanche =>
              rw [selectPriority, selectAvalanche] at hsel
              cases hx : selectAvalanche rest with
              | none => rw [hx] at hsel; exact Option.noConfusion hsel
              | some q =>
                rw [hx] at hsel
                dsimp only at hsel
                by_cases hq : q.2.apr > p.2.apr
                · rw [if_pos hq] at hsel; exact Option.noConfusion hsel
                · rw [if_neg hq] at hsel; exact Option.noConfusion hsel
            | snowball =>
              rw [selectPriority, selectSnowball] at hsel
              cases hx : selectSnowball rest with
              | none => rw [hx] at hsel; exact Option.noConfusion hsel
              | some q =>
                rw [hx] at hsel
                dsimp only at hsel
                by_cases hq : snowballLt q.2 p.2 = true
                · rw [if_pos hq] at hsel; exact Option.noConfusion hsel
                · rw [if_neg hq] at hsel; exact Option.noConfusion hsel
        exact debtsWithBalance_nil hnil
      | some p =>
        obtain ⟨i, pd⟩ := p
        dsimp only
        have hget := (mem_debtsWithBalance (selectPriority_mem hsel)).1
        have hpos := (mem_debtsWithBalance (selectPriority_mem hsel)).2
        by_cases hble : pd.balance ≤ avail
        · have hext : min avail pd.balance = pd.balance := min_eq_right hble
          have hz : (if pd.balance - min avail pd.balance < 1 / 100 then (0:ℚ)
              else pd.balance - min avail pd.balance) = 0 := by
            rw [hext, sub_self, if_pos (by norm_num)]
          have hcount := posCount_modifyAt_zero ds i pd (fun d =>
            { d with balance := if pd.balance - min avail pd.balance < 1 / 100 then 0
                else pd.balance - min avail pd.balance }) hget hpos (le_of_eq hz)
          exact ih (avail - min avail pd.balance) _ _ _ (by omega) (by rw [hext]; linarith)
        · have hext : min avail pd.balance = avail := min_eq_left (le_of_not_le hble)
          refine Or.inl ?_
          have hspec := allocateExtra_avail_bounds m n (avail - min avail pd.balance)
            (modifyAt ds i fun d =>
              { d with balance := if pd.balance - min avail pd.balance < 1 / 100 then 0
                  else pd.balance - min avail pd.balance })
            (modifyAt recs i fun r =>
              { r with payment := r.payment + min avail pd.balance,
                       extraPayment := r.extraPayment + min avail pd.balance,
                       balance := if pd.balance - min avail pd.balance < 1 / 100 then 0
                         else pd.balance - min avail pd.balance })
            { t with totalPaid := t.totalPaid + min avail pd.balance }
            (by rw [hext]; linarith)
          have h3 := hspec.2
          rw [hext] at h3
          linarith [h3]
    · rw [if_neg hgt]
      exact Or.inl (le_of_not_lt hgt)

/-- One strategy month pays out at most the budget, and pays out the budget up
to one cent whenever some balance remains afterwards. -/
lemma monthStep_budget (m : Method) (hm : m ≠ .minimum) {w0 ds : List Debt}
    (t : Totals) {b e : ℚ} (hw0 : ∀ d ∈ w0, ValidDebt d)
    (hrel : List.Forall₂ StepRel w0 ds) (hb : b = minSum w0 + e) (he : 0 ≤ e) :
    sumPayments (monthStep m b ds t).2.1 ≤ b ∧
      ((∃ x ∈ (monthStep m b ds t).1, 0 < x.balance) →
        b - 1 / 100 ≤ sumPayments (monthStep m b ds t).2.1) := by
  rw [monthStep_strategy m hm b ds t]
  dsimp only
  have hAspec := applyMinimumPayments_spec ds t b
  have hle := applyMinimumPayments_le_minSum t b hw0 hrel
  have hav0 : 0 ≤ (applyMinimumPayments ds t b).2.2.2 := by
    rw [hAspec.1]
    linarith [hle]
  have hlenAr : (applyMinimumPayments ds t b).2.1.length =
      (applyMinimumPayments ds t b).1.length := by
    rw [hAspec.2.2.2, hAspec.2.2.1]
  have hEspec := allocateExtra_spec m (ds.length + 1) (applyMinimumPayments ds t b).2.2.2
    (applyMinimumPayments ds t b).1 (applyMinimumPayments ds t b).2.1
    (applyMinimumPayments ds t b).2.2.1 hlenAr hav0
  have hsum := hEspec.1
  have hpos := hEspec.2.1
  rw [hAspec.1] at hsum
  constructor
  · linarith
  · intro hex
    have hexit := allocateExtra_exit m hm (ds.length + 1) (applyMinimumPayments ds t b).2.2.2
      (applyMinimumPayments ds t b).1 (applyMinimumPayments ds t b).2.1
      (applyMinimumPayments ds t b).2.2.1
      (by have h1 := posCount_le_length (applyMinimumPayments ds t b).1
          rw [hAspec.2.2.1] at h1
          omega)
      hav0
    rcases hexit with hsmall | hzero
    · linarith
    · obtain ⟨x, hx, hxpos⟩ := hex
      exact absurd (hzero x hx) (not_le.mpr hxpos)

lemma get?_append_middle {α : Type} (l1 l2 : List α) (x : α) :
    ((l1 ++ [x]) ++ l2).get? l1.length = some x := by
  rw [List.get?_append (by simp), List.get?_append_right (le_refl _)]
  simp

/-- Every month of a strategy run except possibly the last pays out the fixed
budget to within one cent. -/
lemma simulationLoop_budget (m : Method) (hm : m ≠ .minimum) (w0 : List Debt) (b e : ℚ)
    (hw0 : ∀ d ∈ w0, ValidDebt d) (hb : b = minSum w0 + e) (he : 0 ≤ e) :
    ∀ (fuel mc : Nat) (ds : List Debt) (t : Totals) (acc : List MonthRecord),
      List.Forall₂ StepRel w0 ds →
      ∀ i mr, (simulationLoop m b fuel mc ds t acc).2.2.1.get? i = some mr →
        acc.length ≤ i → i + 1 < (simulationLoop m b fuel mc ds t acc).2.2.1.length →
        b - 1 / 100 ≤ sumPayments mr.debtPayments ∧ sumPayments mr.debtPayments ≤ b := by
  intro fuel
  induction fuel with
  | zero =>
    intro mc ds t acc hrel i mr hget hge hlen
    rw [simulationLoop] at hlen
    dsimp only at hlen
    omega
  | succ n ih =>
    intro mc ds t acc hrel i mr hget hge hlen
    by_cases hany : (ds.any fun d => decide (0 < d.balance)) = true
    · rw [simulationLoop_step m b n mc ds t acc hany] at hget hlen
      have hrel' : List.Forall₂ StepRel w0 (monthStep m b ds t).1 :=
        @forall₂_comp Debt Debt Debt StepRel StepRel StepRel
          (fun _ _ _ h1 h2 => StepRel_trans h1 h2) _ _ _ hrel (monthStep_rel m b ds t).1
      by_cases hi : acc.length + 1 ≤ i
      · refine ih (mc + 1) _ _ _ hrel' i mr hget ?_ hlen
        simp only [List.length_append, List.length_singleton]
        omega
      · have hieq : i = acc.length := by omega
        subst hieq
        rw [simulationLoop_out_acc] at hget hlen
        rw [get?_append_middle] at hget
        have hmr := Option.some.inj hget
        simp only [List.length_append, List.length_singleton] at hlen
        have hLpos : 0 < (simulationLoop m b n (mc + 1) (monthStep m b ds t).1
            (monthStep m b ds t).2.2 []).2.2.1.length := by omega
        have hbud := monthStep_budget m hm t hw0 hrel hb he
        have hex : ∃ x ∈ (monthStep m b ds t).1, 0 < x.balance := by
          cases n with
          | zero =>
            rw [show (simulationLoop m b 0 (mc + 1) (monthStep m b ds t).1
                (monthStep m b ds t).2.2 []) = ((monthStep m b ds t).1,
                (monthStep m b ds t).2.2, [], mc + 1) from rfl] at hLpos
            simp at hLpos
          | succ k =>
            by_cases hany2 : ((monthStep m b ds t).1.any fun d => decide (0 < d.balance)) = true
            · rcases List.any_eq_true.mp hany2 with ⟨x, hx, hxp⟩
              exact ⟨x, hx, of_decide_eq_true hxp⟩
            · rw [simulationLoop_stop m b (k + 1) (mc + 1) _ _ [] hany2] at hLpos
              simp at hLpos
        rw [← hmr]
        exact ⟨hbud.2 hex, hbud.1⟩
    · rw [simulationLoop_stop m b (n + 1) mc ds t acc hany] at hlen
      dsimp only at hlen
      omega

lemma workingCopy_valid {debts : List Debt} (hv : ∀ d ∈ debts, ValidDebt d) :
    ∀ d ∈ workingCopy debts, ValidDebt d := by
  intro d hd
  rw [workingCopy] at hd
  rcases List.mem_map.mp hd with ⟨d0, hd0, rfl⟩
  rcases hv d0 hd0 with ⟨h1, h2, h3⟩
  exact ⟨h1, div_nonneg h2 (by norm_num), h3⟩

/-- C1, budget conservation: for every avalanche or snowball run on debts with
non-negative balance, APR and minimum payment and a positive extra budget, in
every simulated month except possibly the last the summed `payment` fields of
that month's records equal the fixed monthly budget (initial minimums plus the
extra amount, constant for the whole run) to within one cent. -/
theorem claim_C1_budget_conservation (debts : List Debt) (e : ℚ) (m : Method)
    (hm : m = .avalanche ∨ m = .snowball) (hv : ∀ d ∈ debts, ValidDebt d)
    (he : 0 < e) (r : PlanResult) (hr : calculateRepaymentPlan debts e m = some r) :
    ∀ i mr, r.monthlyPayments.get? i = some mr → i + 1 < r.monthlyPayments.length →
      |sumPayments mr.debtPayments - initialBudget debts e| ≤ 1 / 100 := by
  intro i mr hget hlen
  cases debts with
  | nil =>
    rw [calculateRepaymentPlan] at hr
    simp at hr
  | cons d0 rest =>
    rw [calculateRepaymentPlan_cons] at hr
    have hmp : r.monthlyPayments = (simulationLoop m (planBudget (d0 :: rest) e m) 1200 0
        (workingCopy (d0 :: rest)) ⟨0, 0⟩ []).2.2.1 := by
      rw [← Option.some.inj hr]
    have hmne : m ≠ .minimum := by
      rcases hm with h | h <;> subst h <;> exact Method.noConfusion
    have hbudget : planBudget (d0 :: rest) e m = minSum (workingCopy (d0 :: rest)) + e := by
      rcases hm with h | h <;> subst h <;> exact initialBudget_eq (d0 :: rest) e
    have hinit : initialBudget (d0 :: rest) e = planBudget (d0 :: rest) e m := by
      rcases hm with h | h <;> subst h <;> rfl
    rw [hmp] at hget hlen
    have hrun := simulationLoop_budget m hmne (workingCopy (d0 :: rest))
      (planBudget (d0 :: rest) e m) e (workingCopy_valid hv) hbudget (le_of_lt he)
      1200 0 (workingCopy (d0 :: rest)) ⟨0, 0⟩ []
      (List.forall₂_same.mpr fun d _ => StepRel_refl d)
      i mr hget (by simp) hlen
    rw [hinit, abs_le]
    exact ⟨by linarith [hrun.1], by linarith [hrun.2]⟩

unseal Rat.mul Rat.inv Rat.add Rat.sub in
/-- Witness for C1: the avalanche run on a single installment debt (balance
100, minimum 30) with extra budget 20 pays exactly the fixed budget 50 in its
non-final month. -/
theorem claim_C1_witness :
    (0:ℚ) < 20 ∧
      |sumPayments [(⟨0, 50, 30, 20, 50, 0⟩ : PayRecord)] -
          initialBudget [⟨0, 100, 0, 30, false⟩] 20| ≤ 1 / 100 := by
  constructor
  · norm_num
  · exact claim_C1_budget_conservation [⟨0, 100, 0, 30, false⟩] 20 .avalanche
      (Or.inl rfl)
      (fun d hd => by
        rw [List.mem_singleton] at hd
        subst hd
        exact ⟨by norm_num, le_refl 0, by norm_num⟩)
      (by norm_num)
      ⟨100, 0, 2, [⟨1, [⟨0, 50, 30, 20, 50, 0⟩], 50, 50⟩,
        ⟨2, [⟨0, 50, 30, 20, 0, 0⟩], 100, 0⟩]⟩
      (by decide) 0 ⟨1, [⟨0, 50, 30, 20, 50, 0⟩], 50, 50⟩ (by decide) (by decide)

/-! ### The surplus allocator follows the claimed greedy discipline -/

lemma modifyAt_congr {α : Type} : ∀ (l : List α) (i : Nat) (f g : α → α) (a : α),
    l.get? i = some a → f a = g a → modifyAt l i f = modifyAt l i g := by
  intro l
  induction l with
  | nil => intro i f g a h hfg; rfl
  | cons x xs ih =>
    intro i f g a h hfg
    cases i with
    | zero =>
      rw [List.get?_cons_zero] at h
      cases h
      rw [modifyAt, modifyAt, hfg]
    | succ n =>
      rw [List.get?_cons_succ] at h
      rw [modifyAt, modifyAt, ih n f g a h hfg]

lemma allocateExtra_trace_nil (m : Method) (fuel : Nat) (avail : ℚ) (ds : List Debt)
    (recs : List PayRecord) (t : Totals) (h : avail ≤ 1 / 100) :
    (allocateExtra m fuel avail ds recs t).2.2.2.2 = [] := by
  cases fuel with
  | zero => rfl
  | succ n => rw [allocateExtra, if_neg (not_lt.mpr h)]

lemma specGreedy_trace_nil (select : List (Nat × Debt) → Option (Nat × Debt))
    (fuel : Nat) (surplus : ℚ) (ds : List Debt) (h : surplus ≤ 1 / 100) :
    specGreedy select fuel surplus ds = [] := by
  cases fuel with
  | zero => rfl
  | succ n => rw [specGreedy, if_neg (not_lt.mpr h)]

/-- The sequence of (index, amount) surplus applications performed by the
engine's allocation loop is exactly the greedy sequence described by the
claim: the engine's sub-cent balance snap never changes the trace, because a
partial payment exhausts the whole surplus and ends both loops. -/
lemma allocateExtra_trace_eq (m : Method) : ∀ (fuel : Nat) (avail : ℚ) (ds : List Debt)
    (recs : List PayRecord) (t : Totals),
    (allocateExtra m fuel avail ds recs t).2.2.2.2 =
      specGreedy (selectPriority m) fuel avail ds := by
  intro fuel
  induction fuel with
  | zero => intro avail ds recs t; rfl
  | succ n ih =>
    intro avail ds recs t
    rw [allocateExtra, specGreedy]
    by_cases hgt : 1 / 100 < avail
    · rw [if_pos hgt, if_pos hgt]
      cases hsel : selectPriority m (debtsWithBalance ds) with
      | none => rfl
      | some p =>
        obtain ⟨i, pd⟩ := p
        dsimp only
        have hget := (mem_debtsWithBalance (selectPriority_mem hsel)).1
        refine congrArg (List.cons (i, min avail pd.balance)) ?_
        by_cases hble : pd.balance ≤ avail
        · have hext : min avail pd.balance = pd.balance := min_eq_right hble
          have hcong : modifyAt ds i (fun d =>
              { d with balance := if pd.balance - min avail pd.balance < 1 / 100 then 0
                  else pd.balance - min avail pd.balance }) =
              modifyAt ds i (fun d => { d with balance := d.balance - min avail pd.balance }) := by
            apply modifyAt_congr ds i _ _ pd hget
            dsimp only
            rw [hext, sub_self, if_pos (by norm_num : (0:ℚ) < 1 / 100)]
          rw [ih, hcong]
        · have hext : min avail pd.balance = avail := min_eq_left (le_of_not_le hble)
          rw [allocateExtra_trace_nil m n _ _ _ _ (by rw [hext]; linarith),
            specGreedy_trace_nil _ n _ _ (by rw [hext]; linarith)]
    · rw [if_neg hgt, if_neg hgt]

lemma selectAvalanche_ne_none (x : Nat × Debt) (xs : List (Nat × Debt)) :
    selectAvalanche (x :: xs) ≠ none := by
  rw [selectAvalanche]
  cases hx : selectAvalanche xs with
  | none => exact Option.noConfusion
  | some q =>
    dsimp only
    by_cases hgt : q.2.apr > x.2.apr
    · rw [if_pos hgt]; exact Option.noConfusion
    · rw [if_neg hgt]; exact Option.noConfusion

lemma selectSnowball_ne_none (x : Nat × Debt) (xs : List (Nat × Debt)) :
    selectSnowball (x :: xs) ≠ none := by
  rw [selectSnowball]
  cases hx : selectSnowball xs with
  | none => exact Option.noConfusion
  | some q =>
    dsimp only
    by_cases hlt : snowballLt q.2 x.2 = true
    · rw [if_pos hlt]; exact Option.noConfusion
    · rw [if_neg hlt]; exact Option.noConfusion

/-- `selectAvalanche` returns the earliest entry of maximal APR: every entry's
APR is at most the winner's, strictly so for entries left of the winner. -/
lemma selectAvalanche_spec : ∀ {l : List (Nat × Debt)} {p : Nat × Debt},
    List.Pairwise (fun a b => a.1 < b.1) l → selectAvalanche l = some p →
    ∀ q ∈ l, q.2.apr ≤ p.2.apr ∧ (q.1 < p.1 → q.2.apr < p.2.apr) := by
  intro l
  induction l with
  | nil =>
    intro p _ h
    exact absurd h (by rw [selectAvalanche]; exact Option.noConfusion)
  | cons x xs ih =>
    intro p hpw h q hq
    rw [selectAvalanche] at h
    rw [List.pairwise_cons] at hpw
    cases hx : selectAvalanche xs with
    | none =>
      rw [hx] at h
      cases h
      rcases List.mem_cons.mp hq with rfl | hq'
      · exact ⟨le_refl _, fun hlt => absurd hlt (lt_irrefl _)⟩
      · cases xs with
        | nil => exact absurd hq' (List.not_mem_nil q)
        | cons y ys => exact absurd hx (selectAvalanche_ne_none y ys)
    | some q0 =>
      rw [hx] at h
      dsimp only at h
      have hmem := selectAvalanche_mem hx
      by_cases hgt : q0.2.apr > x.2.apr
      · rw [if_pos hgt] at h
        cases h
        rcases List.mem_cons.mp hq with rfl | hq'
        · exact ⟨le_of_lt hgt, fun _ => hgt⟩
        · exact ih hpw.2 hx q hq'
      · rw [if_neg hgt] at h
        cases h
        rcases List.mem_cons.mp hq with rfl | hq'
        · exact ⟨le_refl _, fun hlt => absurd hlt (lt_irrefl _)⟩
        · have h1 := (ih hpw.2 hx q hq').1
          have hxq := hpw.1 q hq'
          exact ⟨le_trans h1 (not_lt.mp hgt), fun hlt => absurd hxq (by omega)⟩

lemma snowballLt_asymm {a b : Debt} (h : snowballLt a b = true) :
    snowballLt b a = false := by
  rw [snowballLt] at h ⊢
  by_cases habs : |a.balance - b.balance| < 1 / 100
  · rw [if_pos habs] at h
    rw [if_pos (by rw [abs_sub_comm]; exact habs)]
    simp only [decide_eq_true_eq] at h
    simp only [decide_eq_false_iff_not]
    exact not_lt.mpr (le_of_lt h)
  · rw [if_neg habs] at h
    rw [if_neg (fun hc => habs (by rw [abs_sub_comm]; exact hc))]
    simp only [decide_eq_true_eq] at h
    simp only [decide_eq_false_iff_not]
    exact not_lt.mpr (le_of_lt h)

lemma snowballLt_irrefl (a : Debt) : snowballLt a a = false := by
  rw [snowballLt, sub_self, abs_zero, if_pos (by norm_num : (0:ℚ) < 1 / 100)]
  simp

lemma snowballLt_elim {a b : Debt}
    (hab : |a.balance - b.balance| < 1 / 100 → a.balance = b.balance)
    (h : snowballLt a b = false) :
    (a.balance = b.balance ∧ a.apr ≤ b.apr) ∨ b.balance < a.balance := by
  rw [snowballLt] at h
  by_cases habs : |a.balance - b.balance| < 1 / 100
  · rw [if_pos habs] at h
    simp only [decide_eq_false_iff_not, not_lt] at h
    exact Or.inl ⟨hab habs, h⟩
  · rw [if_neg habs] at h
    simp only [decide_eq_false_iff_not, not_lt] at h
    refine Or.inr (lt_of_le_of_ne h fun heq => habs ?_)
    rw [heq, sub_self, abs_zero]
    norm_num

lemma snowballLt_intro {a b : Debt}
    (hab : |a.balance - b.balance| < 1 / 100 → a.balance = b.balance)
    (h : (a.balance = b.balance ∧ a.apr ≤ b.apr) ∨ b.balance < a.balance) :
    snowballLt a b = false := by
  rw [snowballLt]
  by_cases habs : |a.balance - b.balance| < 1 / 100
  · rw [if_pos habs]
    simp only [decide_eq_false_iff_not, not_lt]
    rcases h with ⟨_, hle⟩ | hlt
    · exact hle
    · exact absurd (hab habs) (ne_of_gt hlt)
  · rw [if_neg habs]
    simp only [decide_eq_false_iff_not, not_lt]
    rcases h with ⟨heq, _⟩ | hlt
    · exact le_of_eq heq.symm
    · exact le_of_lt hlt

lemma snowballLt_neg_trans {a b c : Debt}
    (hab : |a.balance - b.balance| < 1 / 100 → a.balance = b.balance)
    (hbc : |b.balance - c.balance| < 1 / 100 → b.balance = c.balance)
    (hac : |a.balance - c.balance| < 1 / 100 → a.balance = c.balance)
    (h1 : snowballLt a b = false) (h2 : snowballLt b c = false) :
    snowballLt a c = false := by
  apply snowballLt_intro hac
  rcases snowballLt_elim hab h1 with ⟨e1, le1⟩ | lt1 <;>
    rcases snowballLt_elim hbc h2 with ⟨e2, le2⟩ | lt2
  · exact Or.inl ⟨by linarith, by linarith⟩
  · exact Or.inr (by linarith)
  · exact Or.inr (by linarith)
  · exact Or.inr (by linarith)

/-- `selectSnowball` returns an entry no other entry strictly beats in the
snowball order, provided sub-cent balance gaps only occur at equal balances. -/
lemma selectSnowball_spec : ∀ {l : List (Nat × Debt)} {p : Nat × Debt},
    (∀ a ∈ l, ∀ b ∈ l, |a.2.balance - b.2.balance| < 1 / 100 →
      a.2.balance = b.2.balance) →
    selectSnowball l = some p →
    ∀ q ∈ l, snowballLt q.2 p.2 = false := by
  intro l
  induction l with
  | nil =>
    intro p _ h
    exact absurd h (by rw [selectSnowball]; exact Option.noConfusion)
  | cons x xs ih =>
    intro p hsep h q hq
    rw [selectSnowball] at h
    have hsep' : ∀ a ∈ xs, ∀ b ∈ xs, |a.2.balance - b.2.balance| < 1 / 100 →
        a.2.balance = b.2.balance :=
      fun a ha b hb => hsep a (List.mem_cons_of_mem _ ha) b (List.mem_cons_of_mem _ hb)
    cases hx : selectSnowball xs with
    | none =>
      rw [hx] at h
      cases h
      rcases List.mem_cons.mp hq with rfl | hq'
      · exact snowballLt_irrefl _
      · cases xs with
        | nil => exact absurd hq' (List.not_mem_nil q)
        | cons y ys => exact absurd hx (selectSnowball_ne_none y ys)
    | some q0 =>
      rw [hx] at h
      dsimp only at h
      have hmem := selectSnowball_mem hx
      by_cases hlt : snowballLt q0.2 x.2 = true
      · rw [if_pos hlt] at h
        cases h
        rcases List.mem_cons.mp hq with rfl | hq'
        · exact snowballLt_asymm hlt
        · exact ih hsep' hx q hq'
      · rw [if_neg hlt] at h
        cases h
        rcases List.mem_cons.mp hq with rfl | hq'
        · exact snowballLt_irrefl _
        · have h1 := ih hsep' hx q hq'
          have h2 : snowballLt q0.2 x.2 = false := by simpa using hlt
          exact snowballLt_neg_trans
            (hsep q (List.mem_cons_of_mem _ hq') q0 (List.mem_cons_of_mem _ hmem))
            (hsep q0 (List.mem_cons_of_mem _ hmem) x (List.mem_cons_self _ _))
            (hsep q (List.mem_cons_of_mem _ hq') x (List.mem_cons_self _ _))
            h1 h2

lemma get?_mem_withIndexFrom {α : Type} : ∀ (l : List α) (k j : Nat) (a : α),
    l.get? j = some a → (k + j, a) ∈ withIndexFrom k l := by
  intro l
  induction l with
  | nil => intro k j a h; exact absurd h (by simp)
  | cons x xs ih =>
    intro k j a h
    cases j with
    | zero =>
      rw [List.get?_cons_zero] at h
      cases h
      rw [withIndexFrom]
      exact List.mem_cons_self _ _
    | succ n =>
      rw [List.get?_cons_succ] at h
      rw [withIndexFrom]
      refine List.mem_cons_of_mem _ ?_
      rw [show k + (n + 1) = (k + 1) + n by omega]
      exact ih (k + 1) n a h

lemma mem_debtsWithBalance_of_get? {ds : List Debt} {j : Nat} {q : Debt}
    (h : ds.get? j = some q) (hq : 0 < q.balance) : (j, q) ∈ debtsWithBalance ds := by
  rw [debtsWithBalance]
  refine List.mem_filter.mpr ⟨?_, by simpa using hq⟩
  have := get?_mem_withIndexFrom ds 0 j q h
  simpa using this

lemma withIndexFrom_pairwise {α : Type} : ∀ (l : List α) (k : Nat),
    List.Pairwise (fun a b : Nat × α => a.1 < b.1) (withIndexFrom k l) := by
  intro l
  induction l with
  | nil => intro k; rw [withIndexFrom]; exact List.Pairwise.nil
  | cons x xs ih =>
    intro k
    rw [withIndexFrom, List.pairwise_cons]
    refine ⟨?_, ih (k + 1)⟩
    intro b hb
    obtain ⟨i, a⟩ := b
    have := (mem_withIndexFrom hb).1
    show k < i
    omega

lemma debtsWithBalance_pairwise (ds : List Debt) :
    List.Pairwise (fun a b : Nat × Debt => a.1 < b.1) (debtsWithBalance ds) := by
  rw [debtsWithBalance]
  exact (withIndexFrom_pairwise ds 0).filter _

unseal Rat.mul Rat.inv Rat.add Rat.sub in
/-- C4 (amended): the engine's surplus loop performs exactly the greedy
discipline of the claim.  (1) For every method, fuel, surplus and state, the
sequence of (debt index, amount) surplus applications equals the greedy
reference loop `specGreedy` that repeatedly picks the priority debt among
positive balances and pays `min(surplus, balance)` until the surplus is within
one cent or no debt remains — so one month's surplus can pay off several debts
in succession.  (2) Avalanche selection picks the earliest debt of strictly
maximal APR among positive balances.  (3) When all sub-cent balance gaps are
exact ties, snowball selection picks a positive-balance debt of minimal
balance, with ties broken towards higher APR.  (4) Concretely, a surplus of 20
against positive balances 5, 7 and 100 (APRs 30, 20, 10) is applied as three
consecutive payments (0, 5), (1, 7), (2, 8) within a single month. -/
theorem claim_C4_allocator_discipline :
    (∀ (m : Method) (fuel : Nat) (avail : ℚ) (ds : List Debt)
        (recs : List PayRecord) (t : Totals),
        (allocateExtra m fuel avail ds recs t).2.2.2.2 =
          specGreedy (selectPriority m) fuel avail ds) ∧
      (∀ (ds : List Debt) (i : Nat) (pd : Debt),
        selectPriority .avalanche (debtsWithBalance ds) = some (i, pd) →
          ds.get? i = some pd ∧ 0 < pd.balance ∧
            ∀ j q, ds.get? j = some q → 0 < q.balance →
              q.apr ≤ pd.apr ∧ (j < i → q.apr < pd.apr)) ∧
      (∀ (ds : List Debt),
        (∀ p ∈ ds, ∀ q ∈ ds, |p.balance - q.balance| < 1 / 100 →
          p.balance = q.balance) →
        ∀ (i : Nat) (pd : Debt),
          selectPriority .snowball (debtsWithBalance ds) = some (i, pd) →
            ds.get? i = some pd ∧ 0 < pd.balance ∧
              ∀ j q, ds.get? j = some q → 0 < q.balance →
                pd.balance ≤ q.balance ∧ (q.balance = pd.balance → q.apr ≤ pd.apr)) ∧
      (allocateExtra .avalanche 4 20
          [⟨0, 5, 30, 1, true⟩, ⟨1, 7, 20, 1, true⟩, ⟨2, 100, 10, 1, true⟩]
          [zeroRecord 0, zeroRecord 1, zeroRecord 2] ⟨0, 0⟩).2.2.2.2 =
        [(0, 5), (1, 7), (2, 8)] := by
  refine ⟨allocateExtra_trace_eq, ?_, ?_, ?_⟩
  · intro ds i pd hsel
    have hmem := mem_debtsWithBalance (selectPriority_mem hsel)
    refine ⟨hmem.1, hmem.2, ?_⟩
    intro j q hj hq
    have hspec := selectAvalanche_spec (debtsWithBalance_pairwise ds) hsel
      (j, q) (mem_debtsWithBalance_of_get? hj hq)
    exact hspec
  · intro ds hsep i pd hsel
    have hmem := mem_debtsWithBalance (selectPriority_mem hsel)
    refine ⟨hmem.1, hmem.2, ?_⟩
    intro j q hj hq
    have hsep' : ∀ a ∈ debtsWithBalance ds, ∀ b ∈ debtsWithBalance ds,
        |a.2.balance - b.2.balance| < 1 / 100 → a.2.balance = b.2.balance := by
      intro a ha b hb
      exact hsep a.2 (List.get?_mem (mem_debtsWithBalance ha).1)
        b.2 (List.get?_mem (mem_debtsWithBalance hb).1)
    have hq' := selectSnowball_spec hsep' hsel (j, q)
      (mem_debtsWithBalance_of_get? hj hq)
    have := snowballLt_elim (a := q) (b := pd)
      (hsep q (List.get?_mem hj) pd (List.get?_mem hmem.1)) hq'
    rcases this with ⟨heq, hle⟩ | hlt
    · exact ⟨le_of_eq heq.symm, fun _ => hle⟩
    · exact ⟨le_of_lt hlt, fun heq => absurd heq (ne_of_gt (heq ▸ hlt))⟩
  · decide

unseal Rat.mul Rat.inv Rat.add Rat.sub in
/-- Witness for C4: on two installment debts with balances 50 (APR 10) and 30
(APR 20), all balance gaps are at least one cent, snowball selection picks the
balance-30 debt, and the theorem yields that its balance is at most the other
debt's balance. -/
theorem claim_C4_witness :
    (∀ p ∈ ([⟨0, 50, 10, 5, false⟩, ⟨1, 30, 20, 5, false⟩] : List Debt),
        ∀ q ∈ ([⟨0, 50, 10, 5, false⟩, ⟨1, 30, 20, 5, false⟩] : List Debt),
        |p.balance - q.balance| < 1 / 100 → p.balance = q.balance) ∧
      (⟨1, 30, 20, 5, false⟩ : Debt).balance ≤ (⟨0, 50, 10, 5, false⟩ : Debt).balance :=
  ⟨by decide,
    ((claim_C4_allocator_discipline.2.2.1
        [⟨0, 50, 10, 5, false⟩, ⟨1, 30, 20, 5, false⟩] (by decide)
        1 ⟨1, 30, 20, 5, false⟩ (by decide)).2.2
      0 ⟨0, 50, 10, 5, false⟩ (by decide) (by decide)).1⟩

end Repayment
